import Mathlib

/-!
A shallow embedding of libgit2's rebase engine (`src/rebase.c`) and proofs
about it.  Pure C helpers (string trimming, hex formatting, decimal parsing)
are translated directly; external collaborators that are not part of the
source file (revision walker, checkout, references, notes, diff) are
modelled from the specification and marked as such in their doc comments.
-/

set_option autoImplicit false

/-- Object identifier: fixed-width binary hash, here a natural number.
Its canonical text form is a 40-character lowercase hex string. -/
abbrev Oid := Nat

/-- `GIT_OID_HEXSZ`: length of the hex form of an oid. -/
def GIT_OID_HEXSZ : Nat := 40

/-! ## Character and string helpers (`git__isspace`, `git_buf_rtrim`, hex, decimal) -/

/-- `git__isspace`: the whitespace characters trimmed by `git_buf_rtrim`. -/
def gitIsspace (c : Char) : Bool :=
  c = ' ' || c = '\t' || c = '\n' || c = '\x0b' || c = '\x0c' || c = '\r'

/-- `git_buf_rtrim` on a character list: drop trailing whitespace. -/
def rtrimList (l : List Char) : List Char :=
  (l.reverse.dropWhile gitIsspace).reverse

/-- `git_buf_rtrim`: right-trim a string of trailing whitespace. -/
def rtrim (s : String) : String :=
  ⟨rtrimList s.data⟩

/-- Lowercase hex digit for a value `< 16` (values `≥ 16` are truncated mod 16). -/
def hexDigitChar (n : Nat) : Char :=
  if n % 16 < 10 then Char.ofNat (48 + n % 16) else Char.ofNat (87 + n % 16)

/-- Fixed-width big-endian hex rendering: `toHex w v` has exactly `w` digits
and represents `v mod 16^w`. -/
def toHex : Nat → Nat → List Char
  | 0, _ => []
  | w + 1, v => toHex w (v / 16) ++ [hexDigitChar (v % 16)]

/-- `git_oid_fmt`: the 40-character hex form of an oid. -/
def oid_str (id : Oid) : String :=
  ⟨toHex GIT_OID_HEXSZ id⟩

/-- Value of a hex digit character, if it is one. -/
def fromHexDigit (c : Char) : Option Nat :=
  if 48 ≤ c.toNat ∧ c.toNat ≤ 57 then some (c.toNat - 48)
  else if 97 ≤ c.toNat ∧ c.toNat ≤ 102 then some (c.toNat - 87)
  else if 65 ≤ c.toNat ∧ c.toNat ≤ 70 then some (c.toNat - 55)
  else none

/-- Parse a list of hex digits (most significant first). -/
def fromHexList : List Char → Option Nat
  | [] => some 0
  | c :: cs =>
    match fromHexDigit c, fromHexList cs with
    | some d, some v => some (d * 16 ^ cs.length + v)
    | _, _ => none

/-- Decimal digits with explicit fuel (structural recursion keeps the
function kernel-reducible); one digit is produced per fuel step and the
wrapper below always supplies enough. -/
def natToDecAux : Nat → Nat → List Char
  | 0, _ => []
  | fuel + 1, n =>
    if n < 10 then [hexDigitChar n]
    else natToDecAux fuel (n / 10) ++ [hexDigitChar (n % 10)]

/-- Decimal digits of a natural number, most significant first. -/
def natToDec (n : Nat) : List Char :=
  natToDecAux (n + 1) n

/-- Decimal rendering of a natural number. -/
def natToStr (n : Nat) : String :=
  ⟨natToDec n⟩

/-- Fold a digit list back into the natural number it denotes. -/
def decOfDigits (l : List Char) : Nat :=
  l.foldl (fun a c => a * 10 + (c.toNat - 48)) 0

/-- First position of a character in a list (`strchr`), splitting around it. -/
def splitAtChar (c : Char) : List Char → Option (List Char × List Char)
  | [] => none
  | x :: xs =>
    if x = c then some ([], xs)
    else match splitAtChar c xs with
      | some p => some (x :: p.1, p.2)
      | none => none

/-- Length bound on the suffix produced by `splitAtChar`; it justifies the
termination of the `rewritten` parsing loop below. -/
theorem splitAtChar_snd_length {c : Char} :
    ∀ {l a b : List Char}, splitAtChar c l = some (a, b) → b.length < l.length := by
  intro l
  induction l with
  | nil => intro a b h; simp [splitAtChar] at h
  | cons x xs ih =>
    intro a b h
    rw [splitAtChar] at h
    by_cases hx : x = c
    · rw [if_pos hx] at h
      have hb : xs = b := (Prod.mk.injEq _ _ _ _ ▸ Option.some.injEq _ _ ▸ h).2
      simp [← hb]
    · rw [if_neg hx] at h
      cases hsplit : splitAtChar c xs with
      | none => rw [hsplit] at h; exact absurd h (by simp)
      | some p =>
        rw [hsplit] at h
        have hb : p.2 = b := by
          have := (Option.some.injEq _ _).mp h
          exact congrArg Prod.snd this
        have hlt := ih (a := p.1) (b := p.2) (by rw [hsplit])
        rw [hb] at hlt
        simp only [List.length_cons]
        omega

/-! ## Error model

libgit2 reports a numeric return code plus a thread-local message set with
`giterr_set`; we carry both. -/

/-- libgit2 generic failure code `-1`. -/
def GIT_ERROR : Int := -1
/-- `GIT_ENOTFOUND`. -/
def GIT_ENOTFOUND : Int := -3
/-- `GIT_EEXISTS`. -/
def GIT_EEXISTS : Int := -4
/-- `GIT_EBAREREPO`. -/
def GIT_EBAREREPO : Int := -8
/-- `GIT_EUNBORNBRANCH`. -/
def GIT_EUNBORNBRANCH : Int := -9
/-- `GIT_EMERGECONFLICT`. -/
def GIT_EMERGECONFLICT : Int := -13
/-- `GIT_EMODIFIED`. -/
def GIT_EMODIFIED : Int := -15
/-- `GIT_EAPPLIED`. -/
def GIT_EAPPLIED : Int := -18
/-- `GIT_ITEROVER`. -/
def GIT_ITEROVER : Int := -31

/-- An error result: the return code together with the `giterr` message. -/
structure GErr where
  code : Int
  msg : String
deriving Repr, DecidableEq

/-! ## Association lists (file maps, object database, reference database) -/

/-- First value bound to a key in an association list. -/
def assocGet {κ β : Type} [DecidableEq κ] (l : List (κ × β)) (k : κ) : Option β :=
  match l with
  | [] => none
  | p :: rest => if p.1 = k then some p.2 else assocGet rest k

/-- Bind a key, replacing an existing binding in place or appending a new one. -/
def assocSet {κ β : Type} [DecidableEq κ] (l : List (κ × β)) (k : κ) (v : β) :
    List (κ × β) :=
  match l with
  | [] => [(k, v)]
  | p :: rest => if p.1 = k then (k, v) :: rest else p :: assocSet rest k v

/-! ## Data model -/

/-- A signature: name, email and timestamp (`git_signature`). -/
structure Sig where
  name : String
  email : String
  when : Int
deriving Repr, DecidableEq

/-- A commit object as stored in the object database. -/
structure CommitObj where
  tree : Oid
  parents : List Oid
  author : Sig
  committer : Sig
  messageEncoding : Option String
  message : String
deriving Repr, DecidableEq

/-- A note object: author, committer and message. -/
structure NoteObj where
  author : Sig
  committer : Sig
  message : String
deriving Repr, DecidableEq

/-- A reference is direct (an oid) or symbolic (names another reference). -/
inductive RefTarget where
  | direct (id : Oid)
  | symbolic (name : String)
deriving Repr, DecidableEq

/-- The staging area: entries (path to blob) plus the paths with unresolved
conflict entries. -/
structure IndexState where
  entries : List (String × Oid)
  conflicts : List String
deriving Repr, DecidableEq

/-- Observable side effects, recorded in order of occurrence. -/
inductive Event where
  | mkdirState
  | setOrigHead (id : Oid)
  | writeFile (name : String) (contents : String)
  | appendFile (name : String) (contents : String)
  | rmdirState
  | setRef (name : String) (tgt : RefTarget)
  | checkoutHead
  | checkoutIndex
  | createCommit (id : Oid)
  | createNote (ref : String) (target : Oid)
  | resetHard (id : Oid)
deriving Repr, DecidableEq

/-- The repository: object database, tree database, references, index,
working directory, the two possible rebase state directories (present with
their files, or absent), the `ORIG_HEAD` marker, notes, configuration and
an allocation counter for fresh object ids. -/
structure Repo where
  isBare : Bool
  odb : List (Oid × CommitObj)
  trees : List (Oid × List (String × Oid))
  refs : List (String × RefTarget)
  index : IndexState
  workdir : List (String × Oid)
  applyDir : Option (List (String × String))
  mergeDir : Option (List (String × String))
  origHead : Option Oid
  notes : List (String × Oid × NoteObj)
  cfgNotesRewriteRebase : Option Bool
  cfgNotesRewriteRef : Option String
  nextOid : Oid
  trace : List Event
deriving Repr, DecidableEq

/-- A commit-tip descriptor (`git_merge_head`): the oid and the fully
qualified reference name that produced it, if any.  The `oid_str` field of
the C struct is always the hex rendering of `oid` (maintained by the
merge-head constructor) and is modelled by applying `oid_str`. -/
structure MergeHead where
  refName : Option String
  oid : Oid
deriving Repr, DecidableEq

/-- `git_rebase_options`. -/
structure RebaseOptions where
  version : Nat
  quiet : Bool
  rewriteNotesRef : Option String
deriving Repr, DecidableEq

/-- `GIT_REBASE_OPTIONS_INIT`. -/
def GIT_REBASE_OPTIONS_INIT : RebaseOptions :=
  { version := 1, quiet := false, rewriteNotesRef := none }

/-- `git_checkout_options` (only the fields the rebase engine touches). -/
structure CheckoutOptions where
  strategy : Nat
  ancestorLabel : Option String
  ourLabel : Option String
  theirLabel : Option String
deriving Repr, DecidableEq

/-- `GIT_CHECKOUT_SAFE`. -/
def GIT_CHECKOUT_SAFE : Nat := 1
/-- `GIT_CHECKOUT_FORCE`. -/
def GIT_CHECKOUT_FORCE : Nat := 2

/-- `GIT_CHECKOUT_OPTIONS_INIT`. -/
def GIT_CHECKOUT_OPTIONS_INIT : CheckoutOptions :=
  { strategy := 0, ancestorLabel := none, ourLabel := none, theirLabel := none }

/-- `git_rebase_type_t`. -/
inductive RebaseType where
  | none
  | apply
  | merge
  | interactive
deriving Repr, DecidableEq

/-- `struct git_rebase_state_merge`: step counter, total, display label and
the currently staged pick (looked up at load time). -/
structure MergeStateData where
  msgnum : Int
  end_ : Int
  ontoName : String
  current : Option (Oid × CommitObj)
deriving Repr, DecidableEq

/-- `git_rebase_state`. -/
structure RebaseState where
  type : RebaseType
  headDetached : Bool
  origHeadName : Option String
  origHeadId : Oid
  ontoId : Oid
  merge : MergeStateData
deriving Repr, DecidableEq

/-! ## Error values -/

/-- "There is no rebase in progress" (`GIT_ENOTFOUND`). -/
def errNoRebase : GErr := ⟨GIT_ENOTFOUND, "There is no rebase in progress"⟩
/-- Missing file on `git_futils_readbuffer`. -/
def errFileNotFound : GErr := ⟨GIT_ENOTFOUND, "The requested file does not exist"⟩
/-- Missing object on lookup. -/
def errObjectNotFound : GErr := ⟨GIT_ENOTFOUND, "Object not found"⟩
/-- Missing tree on lookup. -/
def errTreeNotFound : GErr := ⟨GIT_ENOTFOUND, "Tree not found"⟩
/-- Missing reference on lookup. -/
def errRefNotFound : GErr := ⟨GIT_ENOTFOUND, "Reference does not exist"⟩
/-- Symbolic HEAD naming a branch that does not exist yet. -/
def errUnborn : GErr := ⟨GIT_EUNBORNBRANCH, "HEAD points to an unborn branch"⟩
/-- `git_oid_fromstr` failure. -/
def errOidParse : GErr := ⟨GIT_ERROR, "Unable to parse OID - contains invalid characters"⟩
/-- `git__strtol32` failure. -/
def errStrtol : GErr := ⟨GIT_ERROR, "Failed to convert string to long"⟩
/-- Interactive flavor detected at load. -/
def errInteractive : GErr := ⟨GIT_ERROR, "Interactive rebase is not supported"⟩
/-- Apply flavor detected at load. -/
def errApplyFlavor : GErr := ⟨GIT_ERROR, "Patch application rebase is not supported"⟩
/-- `init` called while a rebase exists. -/
def errInProgress : GErr := ⟨GIT_ERROR, "There is an existing rebase in progress"⟩
/-- Bare repository. -/
def errBare : GErr := ⟨GIT_EBAREREPO, "Cannot rebase in bare repository"⟩
/-- Staged changes at `init` time. -/
def errDirtyIndex : GErr := ⟨GIT_ERROR, "Uncommitted changes exist in index"⟩
/-- Unstaged changes at `init` time. -/
def errDirtyWorkdir : GErr := ⟨GIT_ERROR, "Unstaged changes exist in workdir"⟩
/-- `commit` called without a staged pick. -/
def errNoStateFiles : GErr := ⟨GIT_ERROR, "No rebase-merge state files exist"⟩
/-- Unresolved conflicts at `commit` time. -/
def errConflicts : GErr := ⟨GIT_EMERGECONFLICT, "Conflicts have not been resolved"⟩
/-- Empty pick at `commit` time. -/
def errPatchApplied : GErr := ⟨GIT_EAPPLIED, "This patch has already been applied"⟩
/-- A merge commit reached the stepper. -/
def errMergeCommit : GErr := ⟨GIT_ERROR, "Cannot rebase a merge commit"⟩
/-- `GIT_ITEROVER` is returned without setting a message. -/
def errIterover : GErr := ⟨GIT_ITEROVER, ""⟩
/-- The C code calls `abort()` on an impossible flavor; modelled as an error. -/
def errAbortCalled : GErr := ⟨GIT_ERROR, "process aborted"⟩
/-- A NULL reference name handed to the reference database. -/
def errInvalidRefName : GErr := ⟨GIT_ERROR, "Invalid reference name"⟩
/-- Compare-and-set failure on a reference update. -/
def errRefModified : GErr := ⟨GIT_EMODIFIED, "Old reference value does not match"⟩
/-- Note already exists at create. -/
def errNoteExists : GErr := ⟨GIT_EEXISTS, "Note already exists"⟩
/-- A note that could not be found. -/
def errNoteNotFound : GErr := ⟨GIT_ENOTFOUND, "Note could not be found"⟩
/-- `p_mkdir` failure (`GITERR_OS`). -/
def errMkdirFailed : GErr := ⟨GIT_ERROR, "Failed to create rebase directory"⟩
/-- Options structure with an unexpected version. -/
def errInvalidVersion : GErr := ⟨GIT_ERROR, "Invalid version on options structure"⟩
/-- A violated `assert` in the C entry points; modelled as an error. -/
def errAssert : GErr := ⟨GIT_ERROR, "assertion failure"⟩
/-- Malformed `rewritten` file, 1-based line number. -/
def errRewritten (n : Nat) : GErr :=
  ⟨GIT_ERROR, "Invalid rewritten file at line " ++ natToStr n⟩

/-! ## Parsers (`git_oid_fromstr`, `git__strtol32`) and file reads -/

/-- `git_oid_fromstr`: parse exactly `GIT_OID_HEXSZ` hex characters. -/
def git_oid_fromstr (s : String) : Except GErr Oid :=
  if s.data.length < GIT_OID_HEXSZ then .error errOidParse
  else match fromHexList (s.data.take GIT_OID_HEXSZ) with
    | some v => .ok v
    | none => .error errOidParse

/-- Decimal digit test. -/
def charIsDigit (c : Char) : Bool :=
  48 ≤ c.toNat && c.toNat ≤ 57

/-- `git__strtol32` with base 10: skip leading whitespace, optional sign,
parse the digit prefix (trailing text is ignored), range-check to int32. -/
def git_strtol32 (s : String) : Except GErr Int :=
  match s.data.dropWhile gitIsspace with
  | [] => .error errStrtol
  | c :: rest =>
    let digitsrc := if c = '-' ∨ c = '+' then rest else c :: rest
    let ds := digitsrc.takeWhile charIsDigit
    if ds.isEmpty then .error errStrtol
    else
      let v : Int := if c = '-' then -(decOfDigits ds : Int) else (decOfDigits ds : Int)
      if v < -2147483648 ∨ 2147483647 < v then .error errStrtol else .ok v

/-- `git_futils_readbuffer` from a state directory: the whole file contents,
or `GIT_ENOTFOUND`. -/
def git_futils_readbuffer (dir : List (String × String)) (name : String) :
    Except GErr String :=
  match assocGet dir name with
  | some s => .ok s
  | none => .error errFileNotFound

/-! ## Repository observers -/

/-- Commit lookup in the object database. -/
def odbLookup (repo : Repo) (id : Oid) : Option CommitObj :=
  assocGet repo.odb id

/-- Tree lookup. -/
def treeLookup (repo : Repo) (id : Oid) : Option (List (String × Oid)) :=
  assocGet repo.trees id

/-- Reference lookup. -/
def refLookup (repo : Repo) (name : String) : Option RefTarget :=
  assocGet repo.refs name

/-- Parents of a commit (empty for an unknown oid). -/
def commitParents (odb : List (Oid × CommitObj)) (id : Oid) : List Oid :=
  ((assocGet odb id).map (fun c => c.parents)).getD []

/-- `git_commit_parentcount > 1` for a commit in the database. -/
def isMergeCommit (odb : List (Oid × CommitObj)) (id : Oid) : Bool :=
  match assocGet odb id with
  | some c => decide (c.parents.length > 1)
  | none => false

/-- Commit timestamp (committer date), used by the time-ordered walk. -/
def commitTime (odb : List (Oid × CommitObj)) (id : Oid) : Int :=
  ((assocGet odb id).map (fun c => c.committer.when)).getD 0

/-- `git_commit_summary`: the subject line of the commit message.  Modelled
from the spec (commit.c is not part of src/): the first line. -/
def git_commit_summary (c : CommitObj) : String :=
  ⟨c.message.data.takeWhile (fun ch => ch != '\n')⟩

/-! ## External collaborators, modelled from the spec (§6)

None of these live in `src/rebase.c`; the spec describes their contracts
and each model follows those words. -/

/-- Modelled from the spec (Refs): resolve `HEAD` to the oid of the current
commit; a symbolic `HEAD` follows one level to a direct branch reference,
a missing target is an unborn branch. -/
def git_repository_head (repo : Repo) : Except GErr Oid :=
  match refLookup repo "HEAD" with
  | none => .error errRefNotFound
  | some (.direct id) => .ok id
  | some (.symbolic n) =>
    match refLookup repo n with
    | some (.direct id) => .ok id
    | some (.symbolic _) => .error errRefNotFound
    | none => .error errUnborn

/-- Modelled from the spec: the tree entries of the commit `HEAD` resolves
to (`git_repository_head_tree`). -/
def git_repository_head_tree (repo : Repo) :
    Except GErr (List (String × Oid)) :=
  match git_repository_head repo with
  | .error e => .error e
  | .ok id =>
    match odbLookup repo id with
    | none => .error errObjectNotFound
    | some c =>
      match treeLookup repo c.tree with
      | none => .error errTreeNotFound
      | some t => .ok t

/-- Modelled from the spec (Refs): forced direct reference creation with a
reflog message (the message itself is not tracked by the model). -/
def git_reference_create (repo : Repo) (name : String) (id : Oid) : Repo :=
  { repo with refs := assocSet repo.refs name (.direct id),
              trace := repo.trace ++ [.setRef name (.direct id)] }

/-- Modelled from the spec (Refs): forced symbolic reference creation.  The
C caller may hand over a NULL target (an absent `orig_head_name`); the
reference database rejects that. -/
def git_reference_symbolic_create (repo : Repo) (name : String)
    (target : Option String) : Except GErr Repo :=
  match target with
  | none => .error errInvalidRefName
  | some t =>
    .ok { repo with refs := assocSet repo.refs name (.symbolic t),
                    trace := repo.trace ++ [.setRef name (.symbolic t)] }

/-- Modelled from the spec (Refs, `git_reference_create_matching`):
compare-and-set of a direct reference against an expected old value, so a
concurrent writer is detected.  A NULL name is rejected. -/
def git_reference_create_matching (repo : Repo) (name : Option String)
    (id : Oid) (expected : Oid) : Except GErr Repo :=
  match name with
  | none => .error errInvalidRefName
  | some n =>
    match refLookup repo n with
    | some (.direct cur) =>
      if cur = expected then
        .ok { repo with refs := assocSet repo.refs n (.direct id),
                        trace := repo.trace ++ [.setRef n (.direct id)] }
      else .error errRefModified
    | _ => .error errRefModified

/-- Modelled from the spec (Refs, `git_reference__update_for_commit` on
`HEAD`): update the reference `HEAD` resolves to (the branch when HEAD is
symbolic, HEAD itself when detached). -/
def git_reference_update_for_commit (repo : Repo) (id : Oid) :
    Except GErr Repo :=
  match refLookup repo "HEAD" with
  | some (.symbolic n) =>
    .ok { repo with refs := assocSet repo.refs n (.direct id),
                    trace := repo.trace ++ [.setRef n (.direct id)] }
  | some (.direct _) =>
    .ok { repo with refs := assocSet repo.refs "HEAD" (.direct id),
                    trace := repo.trace ++ [.setRef "HEAD" (.direct id)] }
  | none => .error errRefNotFound

/-- Modelled from the spec (Checkout): forced checkout of the tree of the
commit `HEAD` resolves to; the working directory and the index are set to
that tree's entries. -/
def git_checkout_head (repo : Repo) : Except GErr Unit × Repo :=
  match git_repository_head repo with
  | .error e => (.error e, repo)
  | .ok id =>
    match odbLookup repo id with
    | none => (.error errObjectNotFound, repo)
    | some c =>
      match treeLookup repo c.tree with
      | none => (.error errTreeNotFound, repo)
      | some t =>
        (.ok (), { repo with workdir := t, index := ⟨t, []⟩,
                             trace := repo.trace ++ [.checkoutIndex] })

/-- Modelled from the spec (Checkout): check an in-memory index out into
the working tree; the repository takes that index over, conflicts
included. -/
def git_checkout_index (repo : Repo) (idx : IndexState) : Repo :=
  { repo with index := idx, workdir := idx.entries,
              trace := repo.trace ++ [.checkoutIndex] }

/-- Modelled from the spec (Diff): the number of paths whose blob differs
between two entry lists. -/
def git_diff_num_deltas (a b : List (String × Oid)) : Nat :=
  (((a.map Prod.fst) ++ (b.map Prod.fst)).dedup.filter
    (fun p => decide (assocGet a p ≠ assocGet b p))).length

/-- Modelled from the spec (three-way tree merge primitive): per path take
the agreeing side, otherwise the changed side; a path changed differently
on both sides becomes a conflict entry. -/
def git_merge_trees_model (ancestor ours theirs : List (String × Oid)) :
    IndexState :=
  let paths :=
    ((ancestor.map Prod.fst) ++ (ours.map Prod.fst) ++ (theirs.map Prod.fst)).dedup
  { entries := paths.filterMap (fun p =>
      (if assocGet ours p = assocGet theirs p then assocGet ours p
       else if assocGet ancestor p = assocGet ours p then assocGet theirs p
       else if assocGet ancestor p = assocGet theirs p then assocGet ours p
       else assocGet ours p).map (fun b => (p, b)))
    conflicts := paths.filter (fun p =>
      decide (assocGet ours p ≠ assocGet theirs p ∧
              assocGet ancestor p ≠ assocGet ours p ∧
              assocGet ancestor p ≠ assocGet theirs p)) }

/-- Modelled from the spec: `git_merge__check_result` rejects merge results
the caller cannot fix (rename cycles); the model tracks no rename
metadata, so every result passes. -/
def git_merge_check_result (_repo : Repo) (_idx : IndexState) :
    Except GErr Unit := .ok ()

/-- Modelled from the spec (Reset): hard reset of index and working tree to
a commit's tree. -/
def git_reset_hard (repo : Repo) (id : Oid) : Except GErr Unit × Repo :=
  match odbLookup repo id with
  | none => (.error errObjectNotFound, repo)
  | some c =>
    match treeLookup repo c.tree with
    | none => (.error errTreeNotFound, repo)
    | some t =>
      (.ok (), { repo with workdir := t, index := ⟨t, []⟩,
                           trace := repo.trace ++ [.resetHard id] })

/-- Modelled from the spec: `git_repository__set_orig_head` writes the
repository's `ORIG_HEAD` marker. -/
def git_repository_set_orig_head (repo : Repo) (id : Oid) : Repo :=
  { repo with origHead := some id, trace := repo.trace ++ [.setOrigHead id] }

/-- Modelled from the spec: `git_repository__ensure_not_bare`. -/
def git_repository_ensure_not_bare (repo : Repo) : Except GErr Unit :=
  if repo.isBare then .error errBare else .ok ()

/-- Note lookup under a notes ref for a target oid. -/
def noteGet (repo : Repo) (ref : String) (target : Oid) : Option NoteObj :=
  (repo.notes.find? (fun t => t.1 == ref && t.2.1 == target)).map
    (fun t => t.2.2)

/-- Modelled from the spec (Notes): read the note for an object, or
`GIT_ENOTFOUND`. -/
def git_note_read (repo : Repo) (ref : String) (target : Oid) :
    Except GErr NoteObj :=
  match noteGet repo ref target with
  | some n => .ok n
  | none => .error errNoteNotFound

/-- Modelled from the spec (Notes): create a note without force; an
existing note for the target is an error. -/
def git_note_create (repo : Repo) (author committer : Sig) (ref : String)
    (target : Oid) (message : String) : Except GErr Repo :=
  match noteGet repo ref target with
  | some _ => .error errNoteExists
  | none =>
    .ok { repo with notes := repo.notes ++ [(ref, target, ⟨author, committer, message⟩)],
                    trace := repo.trace ++ [.createNote ref target] }

/-! ## Revision walker, modelled from the spec (§6 Revwalk)

`revwalk.c` is not part of `src/`; the spec asks for push, hide, and a
topological sort (children before parents) with newest-first time
tie-break, reversed by `GIT_SORT_REVERSE` so the oldest commit comes
first. -/

/-- Append an element if it is not already present. -/
def insertUniq (l : List Oid) (x : Oid) : List Oid :=
  if l.contains x then l else l ++ [x]

/-- One breadth step: add all parents of already-seen commits. -/
def reachExpand (odb : List (Oid × CommitObj)) (seen : List Oid) : List Oid :=
  seen.foldl (fun acc id => (commitParents odb id).foldl insertUniq acc) seen

/-- Iterate `reachExpand`. -/
def reachIter (odb : List (Oid × CommitObj)) : Nat → List Oid → List Oid
  | 0, seen => seen
  | n + 1, seen => reachIter odb n (reachExpand odb seen)

/-- Modelled from the spec: the commits reachable from `root` (inclusive);
`odb.length` expansion rounds saturate any chain the database can hold. -/
def reachableFrom (odb : List (Oid × CommitObj)) (root : Oid) : List Oid :=
  reachIter odb odb.length [root]

/-- The walk set: reachable from the pushed tip but not from the hidden
tip. -/
def walkSet (odb : List (Oid × CommitObj)) (pushed hidden : Oid) : List Oid :=
  (reachableFrom odb pushed).filter
    (fun x => !((reachableFrom odb hidden).contains x))

/-- Element with the largest commit time (first among ties). -/
def maxByTime (odb : List (Oid × CommitObj)) : List Oid → Option Oid
  | [] => none
  | x :: xs =>
    match maxByTime odb xs with
    | none => some x
    | some y => some (if commitTime odb y ≤ commitTime odb x then x else y)

/-- Does `x` have a child among the candidates? -/
def hasChildIn (odb : List (Oid × CommitObj)) (cands : List Oid) (x : Oid) :
    Bool :=
  cands.any (fun c => (commitParents odb c).contains x)

/-- The next commit a newest-first topological walk emits: among candidates
with no remaining child, the one with the largest time (falling back to
plain time order if the candidate graph is cyclic, which cannot happen for
commit graphs). -/
def pickNextCommit (odb : List (Oid × CommitObj)) (cands : List Oid) :
    Option Oid :=
  match maxByTime odb (cands.filter (fun x => !(hasChildIn odb cands x))) with
  | some x => some x
  | none => maxByTime odb cands

/-- Emit candidates one by one (fuel is the candidate count). -/
def topoTimeSortAux (odb : List (Oid × CommitObj)) :
    Nat → List Oid → List Oid
  | 0, _ => []
  | n + 1, cands =>
    match pickNextCommit odb cands with
    | none => []
    | some x => x :: topoTimeSortAux odb n (cands.erase x)

/-- Newest-first topological enumeration with time tie-break. -/
def topoTimeSort (odb : List (Oid × CommitObj)) (cands : List Oid) :
    List Oid :=
  topoTimeSortAux odb cands.length cands

/-- Modelled from the spec (Revwalk): push `pushed`, hide `hidden`, sort
with `GIT_SORT_REVERSE | GIT_SORT_TIME` — the reverse of the newest-first
topological/time enumeration, so the oldest commit is emitted first. -/
def git_revwalk (odb : List (Oid × CommitObj)) (pushed hidden : Oid) :
    List Oid :=
  (topoTimeSort odb (walkSet odb pushed hidden)).reverse

/-- Modelled from the spec (object database): create a commit object with a
single parent; a fresh oid is allocated. -/
def git_commit_create (repo : Repo) (author committer : Sig)
    (enc : Option String) (message : String) (tree : Oid) (parent : Oid) :
    Oid × Repo :=
  let id := repo.nextOid
  (id, { repo with
           odb := repo.odb ++ [(id, ⟨tree, [parent], author, committer, enc, message⟩)],
           nextOid := id + 1,
           trace := repo.trace ++ [.createCommit id] })

/-- Modelled from the spec (Index): write the repository index out as a
tree object; a fresh oid is allocated. -/
def git_index_write_tree (repo : Repo) : Oid × Repo :=
  let id := repo.nextOid
  (id, { repo with trees := repo.trees ++ [(id, repo.index.entries)],
                   nextOid := id + 1 })

/-- Failure to write a state file (`GITERR_OS`). -/
def errWriteFailed : GErr := ⟨GIT_ERROR, "Failed to write rebase state file"⟩

/-- Decimal rendering of a signed 32-bit value (`"%d"`). -/
def intToStr (i : Int) : String :=
  if i < 0 then "-" ++ natToStr i.natAbs else natToStr i.toNat

/-! ## The rebase engine (`src/rebase.c`) -/

/-- `ORIG_DETACHED_HEAD`: the literal stored in `head-name` for a detached
original HEAD. -/
def ORIG_DETACHED_HEAD : String := "detached HEAD"

/-- `rebase_state_type`: probe for the apply directory first, then the
merge directory; `none` when neither exists. -/
def rebase_state_type (repo : Repo) : RebaseType :=
  if repo.applyDir.isSome then .apply
  else if repo.mergeDir.isSome then .merge
  else .none

/-- The file map of the state directory selected by the flavor probe. -/
def stateDirOf (repo : Repo) (t : RebaseType) : List (String × String) :=
  match t with
  | .apply => repo.applyDir.getD []
  | _ => repo.mergeDir.getD []

/-- `rebase_state_merge`: read `end` (mandatory), `onto_name` (mandatory),
`msgnum` (optional, default 0) and `current` (optional; looked up in the
object database when present). -/
def rebase_state_merge (repo : Repo) (dir : List (String × String)) :
    Except GErr MergeStateData :=
  match git_futils_readbuffer dir "end" with
  | .error e => .error e
  | .ok endRaw =>
  match git_strtol32 (rtrim endRaw) with
  | .error e => .error e
  | .ok endVal =>
  match git_futils_readbuffer dir "onto_name" with
  | .error e => .error e
  | .ok ontoNameRaw =>
  let ontoName := rtrim ontoNameRaw
  match (match assocGet dir "msgnum" with
         | none => Except.ok (0 : Int)
         | some raw => git_strtol32 (rtrim raw)) with
  | .error e => .error e
  | .ok msgnum =>
  match (match assocGet dir "current" with
         | none => Except.ok (none : Option (Oid × CommitObj))
         | some raw =>
           match git_oid_fromstr (rtrim raw) with
           | .error e => Except.error e
           | .ok id =>
             match odbLookup repo id with
             | none => Except.error errObjectNotFound
             | some c => Except.ok (some (id, c))) with
  | .error e => .error e
  | .ok current => .ok ⟨msgnum, endVal, ontoName, current⟩

/-- `rebase_state`: probe the flavor, fail `NotFound` when none, read
`head-name` (detecting `detached HEAD`), `orig-head` (falling back to the
legacy `head`), `onto`, then dispatch on the flavor — only merge is
supported. -/
def rebase_state (repo : Repo) : Except GErr RebaseState :=
  let t := rebase_state_type repo
  if t = .none then .error errNoRebase
  else
  let dir := stateDirOf repo t
  match git_futils_readbuffer dir "head-name" with
  | .error e => .error e
  | .ok headNameRaw =>
  let headName := rtrim headNameRaw
  let headDetached : Bool := decide (headName = ORIG_DETACHED_HEAD)
  match (if (assocGet dir "orig-head").isSome then
           git_futils_readbuffer dir "orig-head"
         else git_futils_readbuffer dir "head") with
  | .error e => .error e
  | .ok origHeadRaw =>
  match git_oid_fromstr (rtrim origHeadRaw) with
  | .error e => .error e
  | .ok origHeadId =>
  match git_futils_readbuffer dir "onto" with
  | .error e => .error e
  | .ok ontoRaw =>
  match git_oid_fromstr (rtrim ontoRaw) with
  | .error e => .error e
  | .ok ontoId =>
  let origHeadName := if headDetached then none else some headName
  match t with
  | .interactive => .error errInteractive
  | .merge =>
    match rebase_state_merge repo dir with
    | .error e => .error e
    | .ok m => .ok ⟨.merge, headDetached, origHeadName, origHeadId, ontoId, m⟩
  | .apply => .error errApplyFlavor
  | .none => .error errNoRebase

/-- `rebase_cleanup`: remove the state directory if it exists. -/
def rebase_cleanup (repo : Repo) : Repo :=
  match repo.mergeDir with
  | some _ => { repo with mergeDir := none, trace := repo.trace ++ [.rmdirState] }
  | none => repo

/-- Modelled from the spec: `git_repository__cleanup_files` removes the
named paths — here always the merge state directory. -/
def git_repository_cleanup_files (repo : Repo) : Repo :=
  match repo.mergeDir with
  | some _ => { repo with mergeDir := none, trace := repo.trace ++ [.rmdirState] }
  | none => repo

/-- `rebase_setupfile`: write (or append to) a file inside the merge state
directory. -/
def rebase_setupfile (repo : Repo) (filename : String) (append : Bool)
    (contents : String) : Except GErr Repo :=
  match repo.mergeDir with
  | none => .error errWriteFailed
  | some dir =>
    if append then
      let old := (assocGet dir filename).getD ""
      .ok { repo with mergeDir := some (assocSet dir filename (old ++ contents)),
                      trace := repo.trace ++ [.appendFile filename contents] }
    else
      .ok { repo with mergeDir := some (assocSet dir filename contents),
                      trace := repo.trace ++ [.writeFile filename contents] }

/-- `rebase_onto_name`: the display label of the new base. -/
def rebase_onto_name (onto : MergeHead) : String :=
  match onto.refName with
  | some rn => if rn.startsWith "refs/heads/" then rn.drop 11 else rn
  | none => oid_str onto.oid

/-- The walk loop of `rebase_setup_merge`: for each emitted commit, skip it
when it has more than one parent, otherwise write the next `cmt.<i>`
file. -/
def rebase_setup_commits (repo : Repo) (walk : List Oid) (commit_cnt : Nat) :
    Except GErr Nat × Repo :=
  match walk with
  | [] => (.ok commit_cnt, repo)
  | id :: rest =>
    match odbLookup repo id with
    | none => (.error errObjectNotFound, repo)
    | some commit =>
      if commit.parents.length > 1 then rebase_setup_commits repo rest commit_cnt
      else
        match rebase_setupfile repo ("cmt." ++ natToStr (commit_cnt + 1)) false
                (oid_str id ++ "\n") with
        | .error e => (.error e, repo)
        | .ok repo1 => rebase_setup_commits repo1 rest (commit_cnt + 1)

/-- `rebase_setup_merge`: default the upstream to onto, walk
`branch ∖ upstream` (push/hide must name existing commits), write the
`cmt.<i>` files, then `end`, then `onto_name`. -/
def rebase_setup_merge (repo : Repo) (branch : MergeHead)
    (upstream : Option MergeHead) (onto : MergeHead) (_opts : RebaseOptions) :
    Except GErr Unit × Repo :=
  let upstreamEff := upstream.getD onto
  match odbLookup repo branch.oid with
  | none => (.error errObjectNotFound, repo)
  | some _ =>
  match odbLookup repo upstreamEff.oid with
  | none => (.error errObjectNotFound, repo)
  | some _ =>
  match rebase_setup_commits repo (git_revwalk repo.odb branch.oid upstreamEff.oid) 0 with
  | (.error e, repo1) => (.error e, repo1)
  | (.ok commit_cnt, repo1) =>
    match rebase_setupfile repo1 "end" false (natToStr commit_cnt ++ "\n") with
    | .error e => (.error e, repo1)
    | .ok repo2 =>
      match rebase_setupfile repo2 "onto_name" false (rebase_onto_name onto ++ "\n") with
      | .error e => (.error e, repo2)
      | .ok repo3 => (.ok (), repo3)

/-- The body of `rebase_setup` before its `done:` label: `mkdir`, write
`ORIG_HEAD`, write `head-name`, `onto`, `orig-head`, `quiet`, then the
merge-flavor files. -/
def rebase_setup_inner (repo : Repo) (branch : MergeHead)
    (upstream : Option MergeHead) (onto : MergeHead) (opts : RebaseOptions) :
    Except GErr Unit × Repo :=
  match repo.mergeDir with
  | some _ => (.error errMkdirFailed, repo)
  | none =>
  let repo1 : Repo := { repo with mergeDir := some [],
                                  trace := repo.trace ++ [.mkdirState] }
  let repo2 := git_repository_set_orig_head repo1 branch.oid
  let orig_head_name := branch.refName.getD ORIG_DETACHED_HEAD
  match rebase_setupfile repo2 "head-name" false (orig_head_name ++ "\n") with
  | .error e => (.error e, repo2)
  | .ok repo3 =>
  match rebase_setupfile repo3 "onto" false (oid_str onto.oid ++ "\n") with
  | .error e => (.error e, repo3)
  | .ok repo4 =>
  match rebase_setupfile repo4 "orig-head" false (oid_str branch.oid ++ "\n") with
  | .error e => (.error e, repo4)
  | .ok repo5 =>
  match rebase_setupfile repo5 "quiet" false (if opts.quiet then "t\n" else "\n") with
  | .error e => (.error e, repo5)
  | .ok repo6 => rebase_setup_merge repo6 branch upstream onto opts

/-- `rebase_setup`: on any failure of the body, the state directory is
removed (`git_repository__cleanup_files`). -/
def rebase_setup (repo : Repo) (branch : MergeHead)
    (upstream : Option MergeHead) (onto : MergeHead) (opts : RebaseOptions) :
    Except GErr Unit × Repo :=
  match rebase_setup_inner repo branch upstream onto opts with
  | (.ok _, repo1) => (.ok (), repo1)
  | (.error e, repo1) => (.error e, git_repository_cleanup_files repo1)

/-- `rebase_normalize_opts`: copy the caller's options (or defaults); a
caller-supplied `rewrite_notes_ref` wins, otherwise consult config
`notes.rewrite.rebase` (default true) and `notes.rewriteref`. -/
def rebase_normalize_opts (repo : Repo) (given : Option RebaseOptions) :
    RebaseOptions :=
  let opts := given.getD GIT_REBASE_OPTIONS_INIT
  match given with
  | some g =>
    match g.rewriteNotesRef with
    | some r => { opts with rewriteNotesRef := some r }
    | none =>
      if repo.cfgNotesRewriteRebase.getD true then
        { opts with rewriteNotesRef := repo.cfgNotesRewriteRef }
      else opts
  | none =>
    if repo.cfgNotesRewriteRebase.getD true then
      { opts with rewriteNotesRef := repo.cfgNotesRewriteRef }
    else opts

/-- `rebase_ensure_not_in_progress`. -/
def rebase_ensure_not_in_progress (repo : Repo) : Except GErr Unit :=
  if rebase_state_type repo ≠ .none then .error errInProgress else .ok ()

/-- `rebase_ensure_not_dirty`: HEAD tree vs index first, then index vs
working directory. -/
def rebase_ensure_not_dirty (repo : Repo) : Except GErr Unit :=
  match git_repository_head_tree repo with
  | .error e => .error e
  | .ok headTree =>
    if git_diff_num_deltas headTree repo.index.entries > 0 then .error errDirtyIndex
    else if git_diff_num_deltas repo.index.entries repo.workdir > 0 then .error errDirtyWorkdir
    else .ok ()

/-- `GITERR_CHECK_VERSION` on the caller's options. -/
def optsVersionOk (given : Option RebaseOptions) : Bool :=
  match given with
  | some g => g.version == 1
  | none => true

/-- `if (!onto) onto = upstream;` in `git_rebase` (the assert guarantees at
least one of the two is present; `branch` is an impossible fallback). -/
def rebase_eff_onto (branch : MergeHead) (upstream onto : Option MergeHead) :
    MergeHead :=
  onto.getD (upstream.getD branch)

/-- `if (!upstream) upstream = onto;` in `rebase_setup_merge`, composed with
the onto defaulting of `git_rebase`. -/
def rebase_eff_upstream (branch : MergeHead) (upstream onto : Option MergeHead) :
    MergeHead :=
  upstream.getD (rebase_eff_onto branch upstream onto)

/-- `git_rebase` (init): version check, normalize options, the four
preconditions in order, setup, move HEAD to onto, force-checkout. -/
def git_rebase (repo : Repo) (branch : MergeHead)
    (upstream onto : Option MergeHead) (_signature : Sig)
    (given_opts : Option RebaseOptions) : Except GErr Unit × Repo :=
  if ¬ (upstream.isSome || onto.isSome) then (.error errAssert, repo)
  else if ¬ optsVersionOk given_opts then (.error errInvalidVersion, repo)
  else
  let opts := rebase_normalize_opts repo given_opts
  match git_repository_ensure_not_bare repo with
  | .error e => (.error e, repo)
  | .ok _ =>
  match rebase_ensure_not_in_progress repo with
  | .error e => (.error e, repo)
  | .ok _ =>
  match rebase_ensure_not_dirty repo with
  | .error e => (.error e, repo)
  | .ok _ =>
  let ontoEff := rebase_eff_onto branch upstream onto
  match rebase_setup repo branch upstream ontoEff opts with
  | (.error e, repo1) => (.error e, repo1)
  | (.ok _, repo1) =>
    let repo2 := git_reference_create repo1 "HEAD" ontoEff.oid
    match git_checkout_head repo2 with
    | (.error e, repo3) => (.error e, repo3)
    | (.ok _, repo3) => (.ok (), repo3)

/-- `normalize_checkout_opts`: copy the caller's options or default to the
safe strategy, then fill the unset conflict labels. -/
def normalize_checkout_opts (given : Option CheckoutOptions)
    (ontoName : String) (pick : CommitObj) : CheckoutOptions :=
  let co0 := match given with
    | some g => g
    | none => { GIT_CHECKOUT_OPTIONS_INIT with strategy := GIT_CHECKOUT_SAFE }
  let co1 := if co0.ancestorLabel.isNone then { co0 with ancestorLabel := some "ancestor" } else co0
  let co2 := if co1.ourLabel.isNone then { co1 with ourLabel := some ontoName } else co1
  if co2.theirLabel.isNone then { co2 with theirLabel := some (git_commit_summary pick) } else co2

/-- `rebase_next_merge`: exhaustion check, read `cmt.<step>`, look up the
pick and the three trees, reject merge commits, persist `msgnum` and
`current`, then merge and check out. -/
def rebase_next_merge (repo : Repo) (state : RebaseState)
    (given_checkout_opts : Option CheckoutOptions) : Except GErr Unit × Repo :=
  if state.merge.msgnum = state.merge.end_ then (.error errIterover, repo)
  else
  let msgnum := state.merge.msgnum + 1
  match (match repo.mergeDir with
         | none => Except.error errFileNotFound
         | some dir => git_futils_readbuffer dir ("cmt." ++ intToStr msgnum)) with
  | .error e => (.error e, repo)
  | .ok currentRaw =>
  let currentStr := rtrim currentRaw
  match git_oid_fromstr currentStr with
  | .error e => (.error e, repo)
  | .ok current_id =>
  match odbLookup repo current_id with
  | none => (.error errObjectNotFound, repo)
  | some pick =>
  match treeLookup repo pick.tree with
  | none => (.error errTreeNotFound, repo)
  | some current_tree =>
  match git_repository_head_tree repo with
  | .error e => (.error e, repo)
  | .ok head_tree =>
  if pick.parents.length > 1 then (.error errMergeCommit, repo)
  else
  match (match pick.parents with
         | [] => Except.ok ([] : List (String × Oid))
         | p :: _ =>
           match odbLookup repo p with
           | none => Except.error errObjectNotFound
           | some pc =>
             match treeLookup repo pc.tree with
             | none => Except.error errTreeNotFound
             | some pt => Except.ok pt) with
  | .error e => (.error e, repo)
  | .ok parent_tree =>
  match rebase_setupfile repo "msgnum" false (intToStr msgnum ++ "\n") with
  | .error e => (.error e, repo)
  | .ok repo1 =>
  match rebase_setupfile repo1 "current" false (currentStr ++ "\n") with
  | .error e => (.error e, repo1)
  | .ok repo2 =>
  let _checkout_opts := normalize_checkout_opts given_checkout_opts state.merge.ontoName pick
  let idx := git_merge_trees_model parent_tree head_tree current_tree
  match git_merge_check_result repo2 idx with
  | .error e => (.error e, repo2)
  | .ok _ => (.ok (), git_checkout_index repo2 idx)

/-- `git_rebase_next`: note that a load failure is returned as the generic
code `-1` (the C code writes `return -1;`), keeping only the message. -/
def git_rebase_next (repo : Repo) (checkout_opts : Option CheckoutOptions) :
    Except GErr Unit × Repo :=
  match rebase_state repo with
  | .error e => (.error ⟨GIT_ERROR, e.msg⟩, repo)
  | .ok state =>
    match state.type with
    | .merge => rebase_next_merge repo state checkout_opts
    | _ => (.error errAbortCalled, repo)

/-- `rebase_commit_merge`: require a staged pick, reject conflicts, reject
an empty pick, write the tree, default author/encoding/message from the
pick, create the commit, advance HEAD, append to `rewritten`. -/
def rebase_commit_merge (repo : Repo) (state : RebaseState)
    (author : Option Sig) (committer : Sig) (message_encoding : Option String)
    (message : Option String) : Except GErr Oid × Repo :=
  if state.merge.msgnum = 0 ∨ state.merge.current = none then
    (.error errNoStateFiles, repo)
  else
  let index := repo.index
  if index.conflicts ≠ [] then (.error errConflicts, repo)
  else
  match git_repository_head repo with
  | .error e => (.error e, repo)
  | .ok head_id =>
  match odbLookup repo head_id with
  | none => (.error errObjectNotFound, repo)
  | some head_commit =>
  match treeLookup repo head_commit.tree with
  | none => (.error errTreeNotFound, repo)
  | some head_tree =>
  if git_diff_num_deltas head_tree index.entries = 0 then
    (.error errPatchApplied, repo)
  else
  let wt := git_index_write_tree repo
  match treeLookup wt.2 wt.1 with
  | none => (.error errTreeNotFound, wt.2)
  | some _ =>
  match state.merge.current with
  | none => (.error errNoStateFiles, wt.2)
  | some (current_id, current) =>
  let author2 := author.getD current.author
  let encMsg := match message with
    | none => (current.messageEncoding, current.message)
    | some m => (message_encoding, m)
  let cc := git_commit_create wt.2 author2 committer encMsg.1 encMsg.2 wt.1 head_id
  match git_reference_update_for_commit cc.2 cc.1 with
  | .error e => (.error e, cc.2)
  | .ok repo3 =>
  match rebase_setupfile repo3 "rewritten" true
          (oid_str current_id ++ " " ++ oid_str cc.1 ++ "\n") with
  | .error e => (.error e, repo3)
  | .ok repo4 => (.ok cc.1, repo4)

/-- `git_rebase_commit`: load state and dispatch (a load failure keeps its
error code, unlike `git_rebase_next`). -/
def git_rebase_commit (repo : Repo) (author : Option Sig) (committer : Sig)
    (message_encoding : Option String) (message : Option String) :
    Except GErr Oid × Repo :=
  match rebase_state repo with
  | .error e => (.error e, repo)
  | .ok state =>
    match state.type with
    | .merge => rebase_commit_merge repo state author committer message_encoding message
    | _ => (.error errAbortCalled, repo)

/-- `git_rebase_abort`: restore HEAD (direct to `orig_head_id` when
detached, else symbolic to `orig_head_name`), hard-reset to the original
commit, remove the state directory. -/
def git_rebase_abort (repo : Repo) (_signature : Sig) :
    Except GErr Unit × Repo :=
  match rebase_state repo with
  | .error e => (.error e, repo)
  | .ok state =>
  match (if state.headDetached then
           Except.ok (git_reference_create repo "HEAD" state.origHeadId)
         else git_reference_symbolic_create repo "HEAD" state.origHeadName) with
  | .error e => (.error e, repo)
  | .ok repo1 =>
  match odbLookup repo1 state.origHeadId with
  | none => (.error errObjectNotFound, repo1)
  | some _ =>
  match git_reset_hard repo1 state.origHeadId with
  | (.error e, repo2) => (.error e, repo2)
  | (.ok _, repo2) => (.ok (), rebase_cleanup repo2)

/-- `rebase_copy_note`: a missing source note is cleared to success. -/
def rebase_copy_note (repo : Repo) (rewriteRef : String) (fromId toId : Oid)
    (committer : Sig) : Except GErr Repo :=
  match git_note_read repo rewriteRef fromId with
  | .error e => if e.code = GIT_ENOTFOUND then .ok repo else .error e
  | .ok note => git_note_create repo note.author committer rewriteRef toId note.message

/-- The `while (*pair_list)` loop of `rebase_copy_notes`: split each line at
`'\n'`, split at the single space, check both halves have hex length, parse
them and copy the note; `linenum` is 1-based.  The loop consumes at least
one character per iteration (`splitAtChar_snd_length`), so the explicit
fuel — kept structural so the function stays kernel-reducible — never runs
out for the fuel chosen by `rebase_copy_notes`. -/
def rebase_copy_notes_loop : Nat → Repo → String → Sig → Nat → List Char →
    Except GErr Unit × Repo
  | 0, repo, _, _, linenum, _ => (.error (errRewritten linenum), repo)
  | fuel + 1, repo, rewriteRef, committer, linenum, l =>
    if l.isEmpty then (.ok (), repo)
    else
      match splitAtChar '\n' l with
      | none => (.error (errRewritten linenum), repo)
      | some (line, rest) =>
        match splitAtChar ' ' line with
        | none => (.error (errRewritten linenum), repo)
        | some (fromstr, tostr) =>
          if fromstr.length ≠ GIT_OID_HEXSZ ∨ tostr.length ≠ GIT_OID_HEXSZ then
            (.error (errRewritten linenum), repo)
          else
            match git_oid_fromstr ⟨fromstr⟩, git_oid_fromstr ⟨tostr⟩ with
            | .ok fromId, .ok toId =>
              (match rebase_copy_note repo rewriteRef fromId toId committer with
               | .error e => (.error e, repo)
               | .ok repo1 =>
                 rebase_copy_notes_loop fuel repo1 rewriteRef committer (linenum + 1) rest)
            | _, _ => (.error (errRewritten linenum), repo)

/-- `rebase_copy_notes`: disabled without a rewrite ref; otherwise read the
`rewritten` file and copy a note per line. -/
def rebase_copy_notes (repo : Repo) (_state : RebaseState) (committer : Sig)
    (opts : RebaseOptions) : Except GErr Unit × Repo :=
  match opts.rewriteNotesRef with
  | none => (.ok (), repo)
  | some rewriteRef =>
    match repo.mergeDir with
    | none => (.error errFileNotFound, repo)
    | some dir =>
      match git_futils_readbuffer dir "rewritten" with
      | .error e => (.error e, repo)
      | .ok content =>
        rebase_copy_notes_loop (content.data.length + 1) repo rewriteRef committer 1 content.data

/-- `git_rebase_finish`: normalize options, load state, peel `HEAD` to the
terminal commit, CAS-move the original branch (the C code passes
`state.orig_head_name` unconditionally — NULL when the rebase was started
on a detached HEAD), re-create `HEAD` symbolically, copy notes, remove the
state directory. -/
def git_rebase_finish (repo : Repo) (signature : Sig)
    (given_opts : Option RebaseOptions) : Except GErr Unit × Repo :=
  let opts := rebase_normalize_opts repo given_opts
  match rebase_state repo with
  | .error e => (.error e, repo)
  | .ok state =>
  match git_repository_head repo with
  | .error e => (.error e, repo)
  | .ok terminal_id =>
  match odbLookup repo terminal_id with
  | none => (.error errObjectNotFound, repo)
  | some _ =>
  match git_reference_create_matching repo state.origHeadName terminal_id state.origHeadId with
  | .error e => (.error e, repo)
  | .ok repo1 =>
  match git_reference_symbolic_create repo1 "HEAD" state.origHeadName with
  | .error e => (.error e, repo1)
  | .ok repo2 =>
  match rebase_copy_notes repo2 state signature opts with
  | (.error e, repo3) => (.error e, repo3)
  | (.ok _, repo3) => (.ok (), rebase_cleanup repo3)

/-! ## Derived observers used by the theorems -/

/-- The plan `init` persists: the walk output with merge commits (more
than one parent) filtered out, oldest first. -/
def rebasePlan (odb : List (Oid × CommitObj)) (pushed hidden : Oid) : List Oid :=
  (git_revwalk odb pushed hidden).filter (fun id => !(isMergeCommit odb id))

/-- The four files `rebase_setup` writes before the merge-flavor files. -/
def baseSetupFiles (branch : MergeHead) (onto : MergeHead) (opts : RebaseOptions) :
    List (String × String) :=
  [("head-name", branch.refName.getD ORIG_DETACHED_HEAD ++ "\n"),
   ("onto", oid_str onto.oid ++ "\n"),
   ("orig-head", oid_str branch.oid ++ "\n"),
   ("quiet", if opts.quiet then "t\n" else "\n")]

/-- The `cmt.<i>` files the setup loop writes for a plan, numbered from
`cnt + 1`. -/
def cmtFilesList : Nat → List Oid → List (String × String)
  | _, [] => []
  | cnt, id :: rest =>
    ("cmt." ++ natToStr (cnt + 1), oid_str id ++ "\n") :: cmtFilesList (cnt + 1) rest

/-- The digit value of a decimal digit character. -/
def digitVal (c : Char) : Nat :=
  if c = '1' then 1 else if c = '2' then 2 else if c = '3' then 3
  else if c = '4' then 4 else if c = '5' then 5 else if c = '6' then 6
  else if c = '7' then 7 else if c = '8' then 8 else if c = '9' then 9 else 0

/-- Parse a decimal digit list back to the number it denotes. -/
def decParseNat (l : List Char) : Nat :=
  l.foldl (fun a c => a * 10 + digitVal c) 0

/-! ## Concrete fixtures

Small repositories used to instantiate the theorems below: commit `1` is a
root, commit `2` (`topic`) and commit `3` (`onto`) are children of `1`,
each with its own one-file tree. -/

/-- A signature fixture. -/
def sigA : Sig := ⟨"alice", "a@x", 100⟩

/-- Root commit (oid 1, tree 11). -/
def cRoot : CommitObj := ⟨11, [], sigA, ⟨"alice", "a@x", 1⟩, none, "root"⟩

/-- Topic commit (oid 2, tree 12, parent 1), with a message encoding. -/
def cTopic : CommitObj := ⟨12, [1], sigA, ⟨"alice", "a@x", 2⟩, some "enc-x", "topic change"⟩

/-- Onto commit (oid 3, tree 13, parent 1). -/
def cOnto : CommitObj := ⟨13, [1], sigA, ⟨"alice", "a@x", 3⟩, none, "onto"⟩

/-- A clean repository on branch `topic` (HEAD symbolic), no rebase in
progress, index and workdir matching the `topic` tree. -/
def repoInit : Repo := {
  isBare := false
  odb := [(1, cRoot), (2, cTopic), (3, cOnto)]
  trees := [(11, [("f", 101)]), (12, [("f", 102)]), (13, [("f", 103)])]
  refs := [("HEAD", .symbolic "refs/heads/topic"), ("refs/heads/topic", .direct 2)]
  index := ⟨[("f", 102)], []⟩
  workdir := [("f", 102)]
  applyDir := none
  mergeDir := none
  origHead := none
  notes := []
  cfgNotesRewriteRebase := none
  cfgNotesRewriteRef := none
  nextOid := 100
  trace := [] }

/-- The branch tip descriptor for `refs/heads/topic`. -/
def branchTopic : MergeHead := ⟨some "refs/heads/topic", 2⟩

/-- The upstream descriptor for `refs/heads/master`. -/
def upMaster : MergeHead := ⟨some "refs/heads/master", 1⟩

/-- An onto descriptor naming an existing commit. -/
def ontoGood : MergeHead := ⟨none, 3⟩

/-- An onto descriptor whose oid is not in the object database. -/
def ontoMissing : MergeHead := ⟨none, 99⟩

/-- State directory of a mid-rebase merge state: step 1 of 1 picked,
`current` staged. -/
def midDir : List (String × String) :=
  [("head-name", "refs/heads/topic\n"), ("onto", oid_str 3 ++ "\n"),
   ("orig-head", oid_str 2 ++ "\n"), ("quiet", "\n"),
   ("cmt.1", oid_str 2 ++ "\n"), ("end", "1\n"),
   ("onto_name", "onto-label\n"),
   ("msgnum", "1\n"), ("current", oid_str 2 ++ "\n")]

/-- A mid-rebase repository: HEAD detached at onto (3), pick 2 staged, the
index holding the pick's tree (one delta against HEAD's tree). -/
def repoMid : Repo := {
  isBare := false
  odb := [(1, cRoot), (2, cTopic), (3, cOnto)]
  trees := [(11, [("f", 101)]), (12, [("f", 102)]), (13, [("f", 103)])]
  refs := [("HEAD", .direct 3), ("refs/heads/topic", .direct 2)]
  index := ⟨[("f", 102)], []⟩
  workdir := [("f", 102)]
  applyDir := none
  mergeDir := some midDir
  origHead := some 2
  notes := []
  cfgNotesRewriteRebase := none
  cfgNotesRewriteRef := none
  nextOid := 100
  trace := [] }

/-- State directory right after a successful `init` (no `msgnum`, no
`current`). -/
def freshDir : List (String × String) :=
  [("head-name", "refs/heads/topic\n"), ("onto", oid_str 3 ++ "\n"),
   ("orig-head", oid_str 2 ++ "\n"), ("quiet", "\n"),
   ("cmt.1", oid_str 2 ++ "\n"), ("end", "1\n"), ("onto_name", "onto-label\n")]

/-- The repository right after `init`: HEAD at onto, nothing staged yet. -/
def repoFresh : Repo := { repoMid with
  mergeDir := some freshDir
  index := ⟨[("f", 103)], []⟩
  workdir := [("f", 103)] }

/-- The loaded state of `repoFresh` (`msgnum` defaults to 0, no pick). -/
def stFresh : RebaseState :=
  ⟨.merge, false, some "refs/heads/topic", 2, 3, ⟨0, 1, "onto-label", none⟩⟩

/-- The loaded state of `repoMid` (step 1, pick 2 staged). -/
def stMid : RebaseState :=
  ⟨.merge, false, some "refs/heads/topic", 2, 3, ⟨1, 1, "onto-label", some (2, cTopic)⟩⟩

/-- A detached-HEAD mid-rebase repository: `head-name` holds the literal
`detached HEAD` and there is no branch reference. -/
def repoDet : Repo := { repoMid with
  refs := [("HEAD", .direct 3)]
  mergeDir := some [("head-name", "detached HEAD\n"), ("onto", oid_str 3 ++ "\n"),
    ("orig-head", oid_str 2 ++ "\n"), ("quiet", "\n"),
    ("cmt.1", oid_str 2 ++ "\n"), ("end", "1\n"), ("onto_name", "onto-label\n")] }

/-- A repository about to `finish`, whose `rewritten` file holds a
malformed line (no space separator). -/
def repoFin : Repo := { repoMid with
  mergeDir := some (midDir ++ [("rewritten", "garbage-line\n")]) }

/-- Options with a rewrite-notes ref, enabling note propagation. -/
def optsNotes : RebaseOptions := ⟨1, false, some "refs/notes/commits"⟩

/-- A merge state directory whose mandatory `end` file is missing (the
spec's crash-before-`end` torn state). -/
def repoNoEnd : Repo := { repoMid with
  mergeDir := some [("head-name", "refs/heads/topic\n"), ("onto", oid_str 3 ++ "\n"),
    ("orig-head", oid_str 2 ++ "\n")] }

/-- A bare repository. -/
def repoBare : Repo := { repoInit with isBare := true }

/-- A repository with staged changes (index differs from HEAD's tree). -/
def repoDirtyIndex : Repo := { repoInit with index := ⟨[("f", 999)], []⟩ }

/-- A repository with unstaged changes (workdir differs from the index). -/
def repoDirtyWorkdir : Repo := { repoInit with workdir := [("f", 999)] }

/-- A mid-rebase repository whose index still has conflict entries. -/
def repoMidConflict : Repo := { repoMid with index := ⟨[("f", 102)], ["f"]⟩ }

/-- A mid-rebase repository whose index equals HEAD's tree (empty pick). -/
def repoMidApplied : Repo := { repoMid with index := ⟨[("f", 103)], []⟩ }

/-! ## Claim theorems -/

/-- C6: `commit`, in order: fails `InvalidState` (the generic error with
message "No rebase-merge state files exist") when the loaded merge state
has step 0 or no current staged pick; otherwise fails `MergeConflict` when
the repository index contains conflict entries; otherwise fails
`AlreadyApplied` when the diff from the HEAD tree to the index has zero
deltas; in each of these cases the repository — object database, `HEAD`
and all — is returned unchanged. -/
theorem C6_commit_error_order (repo : Repo) (st : RebaseState)
    (author : Option Sig) (committer : Sig) (enc msg : Option String) :
    (st.merge.msgnum = 0 ∨ st.merge.current = none →
      rebase_commit_merge repo st author committer enc msg = (.error errNoStateFiles, repo)) ∧
    (¬(st.merge.msgnum = 0 ∨ st.merge.current = none) →
      repo.index.conflicts ≠ [] →
      rebase_commit_merge repo st author committer enc msg = (.error errConflicts, repo)) ∧
    (¬(st.merge.msgnum = 0 ∨ st.merge.current = none) →
      repo.index.conflicts = [] →
      ∀ head_id head_commit head_tree,
        git_repository_head repo = .ok head_id →
        odbLookup repo head_id = some head_commit →
        treeLookup repo head_commit.tree = some head_tree →
        git_diff_num_deltas head_tree repo.index.entries = 0 →
        rebase_commit_merge repo st author committer enc msg = (.error errPatchApplied, repo)) := by
  refine ⟨?_, ?_, ?_⟩
  · intro h
    simp only [rebase_commit_merge, if_pos h]
  · intro h hc
    simp only [rebase_commit_merge, if_neg h, if_pos hc]
  · intro h hc head_id head_commit head_tree hh ho ht hd
    simp only [rebase_commit_merge, if_neg h, hc, hh, ho, ht, hd]
    simp

/-- Witness for C6 at a concrete mid-rebase repository whose index has an
unresolved conflict entry. -/
theorem C6_commit_error_order_witness :
    rebase_commit_merge repoMidConflict stMid none sigA none none =
      (.error errConflicts, repoMidConflict) :=
  (C6_commit_error_order repoMidConflict stMid none sigA none none).2.1
    (by simp [stMid]) (by simp [repoMidConflict, repoMid])

/-- C9: `init` checks its preconditions in this exact order, each producing
a distinct error, and returns the error of the first violated one with the
repository unchanged (in particular no state directory is created):
(1) the repository is not bare, (2) no rebase state directory exists,
(3) the index has no deltas against the HEAD tree, (4) the working
directory has no deltas against the index. -/
theorem C9_init_precondition_order (repo : Repo) (branch : MergeHead)
    (upstream onto : Option MergeHead) (signature : Sig)
    (gopts : Option RebaseOptions)
    (hsome : upstream.isSome || onto.isSome)
    (hver : optsVersionOk gopts = true) :
    (repo.isBare = true →
      git_rebase repo branch upstream onto signature gopts = (.error errBare, repo)) ∧
    (repo.isBare = false → rebase_state_type repo ≠ .none →
      git_rebase repo branch upstream onto signature gopts = (.error errInProgress, repo)) ∧
    (repo.isBare = false → rebase_state_type repo = .none →
      ∀ headTree, git_repository_head_tree repo = .ok headTree →
        git_diff_num_deltas headTree repo.index.entries > 0 →
        git_rebase repo branch upstream onto signature gopts = (.error errDirtyIndex, repo)) ∧
    (repo.isBare = false → rebase_state_type repo = .none →
      ∀ headTree, git_repository_head_tree repo = .ok headTree →
        git_diff_num_deltas headTree repo.index.entries = 0 →
        git_diff_num_deltas repo.index.entries repo.workdir > 0 →
        git_rebase repo branch upstream onto signature gopts = (.error errDirtyWorkdir, repo)) ∧
    (errBare ≠ errInProgress ∧ errBare ≠ errDirtyIndex ∧ errBare ≠ errDirtyWorkdir ∧
     errInProgress ≠ errDirtyIndex ∧ errInProgress ≠ errDirtyWorkdir ∧
     errDirtyIndex ≠ errDirtyWorkdir) := by
  refine ⟨?_, ?_, ?_, ?_, by decide⟩
  · intro hbare
    simp only [git_rebase, hsome, hver, git_repository_ensure_not_bare, hbare]
    simp
  · intro hbare hdir
    simp only [git_rebase, hsome, hver, git_repository_ensure_not_bare, hbare,
      rebase_ensure_not_in_progress, if_pos hdir]
    simp
  · intro hbare hdir headTree hht hd
    simp [git_rebase, hsome, hver, git_repository_ensure_not_bare, hbare,
      rebase_ensure_not_in_progress, hdir, rebase_ensure_not_dirty, hht, hd]
  · intro hbare hdir headTree hht hd0 hd1
    simp [git_rebase, hsome, hver, git_repository_ensure_not_bare, hbare,
      rebase_ensure_not_in_progress, hdir, rebase_ensure_not_dirty, hht, hd0, hd1]

/-- Witness for C9: the bare fixture trips precondition (1), the
dirty-index fixture trips precondition (3). -/
theorem C9_init_precondition_order_witness :
    git_rebase repoBare branchTopic (some upMaster) (some ontoGood) sigA none =
      (.error errBare, repoBare) ∧
    git_rebase repoDirtyIndex branchTopic (some upMaster) (some ontoGood) sigA none =
      (.error errDirtyIndex, repoDirtyIndex) :=
  ⟨(C9_init_precondition_order repoBare branchTopic (some upMaster) (some ontoGood)
      sigA none (by decide) (by decide)).1 rfl,
   (C9_init_precondition_order repoDirtyIndex branchTopic (some upMaster) (some ontoGood)
      sigA none (by decide) (by decide)).2.2.1 rfl (by decide) [("f", 102)] (by rfl)
      (by decide)⟩

/-- `assocGet` distributes over append: the left list wins. -/
theorem assocGet_append {κ β : Type} [DecidableEq κ] (l1 l2 : List (κ × β)) (k : κ) :
    assocGet (l1 ++ l2) k =
      match assocGet l1 k with
      | some v => some v
      | none => assocGet l2 k := by
  induction l1 with
  | nil => simp [assocGet]
  | cons p rest ih =>
    by_cases hp : p.1 = k
    · simp [assocGet, hp]
    · simp [assocGet, hp, ih]

/-- A fresh key appended at the end is found. -/
theorem assocGet_append_fresh {κ β : Type} [DecidableEq κ] (l : List (κ × β))
    (k : κ) (v : β) (h : assocGet l k = none) :
    assocGet (l ++ [(k, v)]) k = some v := by
  rw [assocGet_append, h]
  simp [assocGet]

/-- `git_reference_update_for_commit` only touches references and trace. -/
theorem update_for_commit_odb (r : Repo) (id : Oid) (r2 : Repo)
    (h : git_reference_update_for_commit r id = .ok r2) : r2.odb = r.odb := by
  unfold git_reference_update_for_commit at h
  split at h
  all_goals first
    | (rw [Except.ok.injEq] at h; subst h; rfl)
    | exact absurd h (by simp)

/-- `rebase_setupfile` only touches the state directory and trace. -/
theorem setupfile_odb (r : Repo) (f : String) (a : Bool) (c : String) (r2 : Repo)
    (h : rebase_setupfile r f a c = .ok r2) : r2.odb = r.odb := by
  unfold rebase_setupfile at h
  split at h
  · exact absurd h (by simp)
  · split at h
    all_goals (rw [Except.ok.injEq] at h; subst h; rfl)

/-- C7 (counterexample): the claim that author, message encoding and
message each default to the staged pick's value independently is false.
Here the caller supplies a message but no encoding; the pick commit carries
the encoding `enc-x`, yet the created commit has no encoding at all (the
code only defaults the encoding together with the message). -/
theorem C7_commit_defaulting_counterexample :
    (git_rebase_commit repoMid none sigA none (some "custom message")).1 = .ok 101 ∧
    odbLookup (git_rebase_commit repoMid none sigA none (some "custom message")).2 101 =
      some ⟨100, [3], sigA, sigA, none, "custom message"⟩ ∧
    cTopic.messageEncoding = some "enc-x" ∧
    odbLookup (git_rebase_commit repoMid none sigA (some "CALLER-ENC") none).2 101 =
      some ⟨100, [3], sigA, sigA, some "enc-x", "topic change"⟩ :=
  ⟨by rfl, by rfl, by rfl, by rfl⟩

/-- C7 (amended): in `commit`, the author defaults to the pick's author
when absent; the message encoding and the message default together — when
the caller supplies no message both are taken from the pick (a
caller-supplied encoding is ignored), and when the caller supplies a
message the caller's encoding is used as-is.  `hfresh` is the allocator
invariant that ids at or above `nextOid` are unused. -/
theorem C7_commit_defaulting (repo : Repo) (st : RebaseState) (author : Option Sig)
    (committer : Sig) (enc msg : Option String) (newId : Oid) (repo2 : Repo)
    (hfresh : ∀ k, repo.nextOid ≤ k → odbLookup repo k = none)
    (h : rebase_commit_merge repo st author committer enc msg = (.ok newId, repo2)) :
    ∃ currentId current, st.merge.current = some (currentId, current) ∧
    ∃ c : CommitObj, odbLookup repo2 newId = some c ∧
      c.author = author.getD current.author ∧
      (msg = none → c.messageEncoding = current.messageEncoding ∧ c.message = current.message) ∧
      (∀ m, msg = some m → c.messageEncoding = enc ∧ c.message = m) := by
  simp only [rebase_commit_merge] at h
  split at h
  · exact absurd h (by simp)
  split at h
  · exact absurd h (by simp)
  split at h
  · exact absurd h (by simp)
  split at h
  · exact absurd h (by simp)
  split at h
  · exact absurd h (by simp)
  split at h
  · exact absurd h (by simp)
  split at h
  · exact absurd h (by simp)
  split at h
  · exact absurd h (by simp)
  split at h
  · exact absurd h (by simp)
  split at h
  · exact absurd h (by simp)
  rename_i hinv hconf x1 head_id hhead x2 head_commit hhc x3 head_tree hhtree hdel
    x4 wtree hwt x5 current_id current hcur x6 repo3 hupd x7 repo4 hsetf
  rw [Prod.mk.injEq] at h
  obtain ⟨h1, h2⟩ := h
  rw [Except.ok.injEq] at h1
  refine ⟨current_id, current, hcur,
    ⟨(git_index_write_tree repo).1, [head_id], author.getD current.author, committer,
     (match msg with
       | none => (current.messageEncoding, current.message)
       | some m => (enc, m)).1,
     (match msg with
       | none => (current.messageEncoding, current.message)
       | some m => (enc, m)).2⟩, ?_, ?_, ?_, ?_⟩
  · simp only [odbLookup]
    rw [← h2, setupfile_odb _ _ _ _ _ hsetf, update_for_commit_odb _ _ _ hupd, ← h1]
    simp only [git_commit_create, git_index_write_tree]
    exact assocGet_append_fresh _ _ _
      (by simpa [odbLookup] using hfresh (repo.nextOid + 1) (Nat.le_succ _))
  · rfl
  · intro hm
    subst hm
    exact ⟨rfl, rfl⟩
  · intro m hm
    subst hm
    exact ⟨rfl, rfl⟩

/-- Witness for the amended C7 at the mid-rebase fixture: the commit
created with no caller-supplied author, encoding or message carries the
pick's message and encoding. -/
theorem C7_commit_defaulting_witness :
    ∃ currentId current, stMid.merge.current = some (currentId, current) ∧
    ∃ c : CommitObj,
      odbLookup (rebase_commit_merge repoMid stMid none sigA none none).2 101 = some c ∧
      c.messageEncoding = current.messageEncoding ∧ c.message = current.message := by
  have hfresh : ∀ k, repoMid.nextOid ≤ k → odbLookup repoMid k = none := by
    intro k hk
    have hge : (100 : Nat) ≤ k := hk
    have h1 : (1 : Nat) ≠ k := by omega
    have h2 : (2 : Nat) ≠ k := by omega
    have h3 : (3 : Nat) ≠ k := by omega
    simp [odbLookup, repoMid, repoInit, assocGet, h1, h2, h3]
  have h : rebase_commit_merge repoMid stMid none sigA none none =
      (.ok 101, (rebase_commit_merge repoMid stMid none sigA none none).2) :=
    Prod.ext (by rfl) rfl
  obtain ⟨cId, cur, hc, c, hl, _, hdef, _⟩ :=
    C7_commit_defaulting repoMid stMid none sigA none none 101 _ hfresh h
  exact ⟨cId, cur, hc, c, hl, (hdef rfl).1, (hdef rfl).2⟩

/-- `rebase_setupfile` appends exactly one write (or append) event. -/
theorem setupfile_trace (r : Repo) (f : String) (a : Bool) (c : String) (r2 : Repo)
    (h : rebase_setupfile r f a c = .ok r2) :
    r2.trace = r.trace ++ [if a then Event.appendFile f c else Event.writeFile f c] := by
  unfold rebase_setupfile at h
  split at h
  · exact absurd h (by simp)
  · split at h
    all_goals (rw [Except.ok.injEq] at h; subst h; simp_all)

/-- `git_reference_update_for_commit` appends exactly one reference
event. -/
theorem update_for_commit_trace (r : Repo) (id : Oid) (r2 : Repo)
    (h : git_reference_update_for_commit r id = .ok r2) :
    ∃ n t, r2.trace = r.trace ++ [Event.setRef n t] := by
  unfold git_reference_update_for_commit at h
  split at h
  all_goals first
    | (rw [Except.ok.injEq] at h; subst h; exact ⟨_, _, rfl⟩)
    | exact absurd h (by simp)

/-- C8: within a single `next`, `msgnum` is written, then `current`, and
both strictly before the checkout of the merged index; within `commit`,
the `"<old_hex> <new_hex>"` line is appended to `rewritten` only after the
new commit object exists (and after HEAD moved to it).  Stated on the
event traces of `rebase_next_merge` and `rebase_commit_merge`. -/
theorem C8_file_write_ordering :
    (∀ repo st co repo2, rebase_next_merge repo st co = (.ok (), repo2) →
      ∃ s1 s2, repo2.trace =
        repo.trace ++ [Event.writeFile "msgnum" s1, Event.writeFile "current" s2,
                       Event.checkoutIndex]) ∧
    (∀ repo st author committer enc msg newId repo2,
      rebase_commit_merge repo st author committer enc msg = (.ok newId, repo2) →
      ∃ currentId current refName refTarget,
        st.merge.current = some (currentId, current) ∧
        repo2.trace = repo.trace ++
          [Event.createCommit newId, Event.setRef refName refTarget,
           Event.appendFile "rewritten" (oid_str currentId ++ " " ++ oid_str newId ++ "\n")]) := by
  constructor
  · intro repo st co repo2 h
    simp only [rebase_next_merge] at h
    split at h
    · exact absurd h (by simp)
    split at h
    · exact absurd h (by simp)
    split at h
    · exact absurd h (by simp)
    split at h
    · exact absurd h (by simp)
    split at h
    · exact absurd h (by simp)
    split at h
    · exact absurd h (by simp)
    split at h
    · exact absurd h (by simp)
    split at h
    · exact absurd h (by simp)
    split at h
    · exact absurd h (by simp)
    split at h
    · exact absurd h (by simp)
    split at h
    · exact absurd h (by simp)
    rename_i hIter xa rawC hread xb pickId hoid xc pick hpick xd ctree hctree
      xe htree hhtree hpar xf ptree hptree xg repoA hw1 xh repoB hw2 xi u hchk
    rw [Prod.mk.injEq] at h
    obtain ⟨-, h2⟩ := h
    refine ⟨intToStr (st.merge.msgnum + 1) ++ "\n", rtrim rawC ++ "\n", ?_⟩
    rw [← h2]
    have t1 := setupfile_trace _ _ _ _ _ hw1
    have t2 := setupfile_trace _ _ _ _ _ hw2
    simp only [git_checkout_index]
    rw [t2, t1]
    simp
  · intro repo st author committer enc msg newId repo2 h
    simp only [rebase_commit_merge] at h
    split at h
    · exact absurd h (by simp)
    split at h
    · exact absurd h (by simp)
    split at h
    · exact absurd h (by simp)
    split at h
    · exact absurd h (by simp)
    split at h
    · exact absurd h (by simp)
    split at h
    · exact absurd h (by simp)
    split at h
    · exact absurd h (by simp)
    split at h
    · exact absurd h (by simp)
    split at h
    · exact absurd h (by simp)
    split at h
    · exact absurd h (by simp)
    rename_i hinv hconf x1 head_id hhead x2 head_commit hhc x3 head_tree hhtree hdel
      x4 wtree hwt x5 current_id current hcur x6 repo3 hupd x7 repo4 hsetf
    rw [Prod.mk.injEq] at h
    obtain ⟨h1, h2⟩ := h
    rw [Except.ok.injEq] at h1
    obtain ⟨n, t, tref⟩ := update_for_commit_trace _ _ _ hupd
    have tapp := setupfile_trace _ _ _ _ _ hsetf
    refine ⟨current_id, current, n, t, hcur, ?_⟩
    rw [← h2, tapp, tref, ← h1]
    simp only [git_commit_create, git_index_write_tree]
    simp


/-- Witness for C8 at the freshly-initialized fixture: stepping stages pick
2 with the three ordered events. -/
theorem C8_file_write_ordering_witness :
    ∃ s1 s2, (rebase_next_merge repoFresh stFresh none).2.trace =
      repoFresh.trace ++ [Event.writeFile "msgnum" s1, Event.writeFile "current" s2,
                          Event.checkoutIndex] :=
  C8_file_write_ordering.1 repoFresh stFresh none
    (rebase_next_merge repoFresh stFresh none).2 (Prod.ext (by rfl) rfl)

/-- C3: on a detached-HEAD rebase state (`head-name` holds the literal
`detached HEAD`, so the loaded state has `headDetached` and no
`origHeadName`), `abort` behaves as the claim says — HEAD is re-created as
a direct reference to `orig_head_id` and the state directory is removed —
but `finish` does **not** create HEAD as a direct reference to the new
terminal commit: the code passes the absent `orig_head_name` (NULL)
straight into the branch CAS update, which fails, so `finish` returns an
error and leaves the repository untouched. -/
theorem C3_detached_head_finish_bug :
    rebase_state repoDet = .ok ⟨.merge, true, none, 2, 3, ⟨0, 1, "onto-label", none⟩⟩ ∧
    git_rebase_finish repoDet sigA none = (.error errInvalidRefName, repoDet) ∧
    (git_rebase_abort repoDet sigA).1 = .ok () ∧
    refLookup (git_rebase_abort repoDet sigA).2 "HEAD" = some (.direct 2) ∧
    (git_rebase_abort repoDet sigA).2.mergeDir = none :=
  ⟨by rfl, by rfl, by rfl, by rfl, by rfl⟩

/-- `assocSet` binds the key. -/
theorem assocGet_set_self {κ β : Type} [DecidableEq κ] (l : List (κ × β)) (k : κ) (v : β) :
    assocGet (assocSet l k v) k = some v := by
  induction l with
  | nil => simp [assocGet, assocSet]
  | cons p rest ih =>
    by_cases hp : p.1 = k
    · simp [assocGet, assocSet, hp]
    · simp [assocGet, assocSet, hp, ih]

/-- `assocSet` leaves other keys alone. -/
theorem assocGet_set_ne {κ β : Type} [DecidableEq κ] (l : List (κ × β)) (k k2 : κ) (v : β)
    (h : k ≠ k2) : assocGet (assocSet l k v) k2 = assocGet l k2 := by
  induction l with
  | nil => simp [assocGet, assocSet, h]
  | cons p rest ih =>
    by_cases hp : p.1 = k
    · simp [assocGet, assocSet, hp, h]
    · simp only [assocSet, if_neg hp]
      by_cases hp2 : p.1 = k2
      · simp [assocGet, hp2]
      · simp [assocGet, hp2, ih]

/-- `rebase_copy_note` only touches notes and trace. -/
theorem copy_note_preserves (r : Repo) (ref : String) (a b : Oid) (c : Sig) (r2 : Repo)
    (h : rebase_copy_note r ref a b c = .ok r2) :
    r2.refs = r.refs ∧ r2.mergeDir = r.mergeDir := by
  unfold rebase_copy_note git_note_read git_note_create at h
  repeat' split at h
  all_goals first
    | (rw [Except.ok.injEq] at h; subst h; exact ⟨rfl, rfl⟩)
    | exact absurd h (by simp)

/-- The note-copy loop only touches notes and trace. -/
theorem copy_notes_loop_preserves (fuel : Nat) :
    ∀ (r : Repo) (ref : String) (c : Sig) (n : Nat) (l : List Char),
      (rebase_copy_notes_loop fuel r ref c n l).2.refs = r.refs ∧
      (rebase_copy_notes_loop fuel r ref c n l).2.mergeDir = r.mergeDir := by
  induction fuel with
  | zero => intro r ref c n l; exact ⟨rfl, rfl⟩
  | succ fuel ih =>
    intro r ref c n l
    rw [rebase_copy_notes_loop]
    split
    · exact ⟨rfl, rfl⟩
    split
    · exact ⟨rfl, rfl⟩
    split
    · exact ⟨rfl, rfl⟩
    split
    · exact ⟨rfl, rfl⟩
    split
    · split
      · exact ⟨rfl, rfl⟩
      · rename_i repo1 hcopy
        obtain ⟨h1, h2⟩ := copy_note_preserves _ _ _ _ _ _ hcopy
        obtain ⟨i1, i2⟩ := ih repo1 ref c (n + 1) _
        exact ⟨i1.trans h1, i2.trans h2⟩
    · exact ⟨rfl, rfl⟩

/-- `rebase_copy_notes` only touches notes and trace. -/
theorem copy_notes_preserves (r : Repo) (st : RebaseState) (c : Sig)
    (opts : RebaseOptions) :
    (rebase_copy_notes r st c opts).2.refs = r.refs ∧
    (rebase_copy_notes r st c opts).2.mergeDir = r.mergeDir := by
  unfold rebase_copy_notes
  split
  · exact ⟨rfl, rfl⟩
  split
  · exact ⟨rfl, rfl⟩
  split
  · exact ⟨rfl, rfl⟩
  · exact copy_notes_loop_preserves _ _ _ _ _ _

/-- A successful CAS reference update rewrites exactly that reference. -/
theorem create_matching_ok (r : Repo) (nm : String) (id expected : Oid) (r2 : Repo)
    (h : git_reference_create_matching r (some nm) id expected = .ok r2) :
    r2.refs = assocSet r.refs nm (.direct id) ∧ r2.mergeDir = r.mergeDir := by
  unfold git_reference_create_matching at h
  repeat' split at h
  all_goals first
    | (rw [Except.ok.injEq] at h; subst h; simp_all)
    | exact absurd h (by simp)

/-- A successful load means the merge directory is present, the apply
directory absent, and the flavor merge. -/
theorem rebase_state_ok_merge (repo : Repo) (st : RebaseState)
    (h : rebase_state repo = .ok st) :
    repo.mergeDir.isSome ∧ repo.applyDir = none ∧ st.type = .merge := by
  cases hap : repo.applyDir with
  | some d =>
    exfalso
    have ht : rebase_state_type repo = .apply := by simp [rebase_state_type, hap]
    simp only [rebase_state, ht] at h
    repeat' split at h
    all_goals simp_all
  | none =>
    cases hm : repo.mergeDir with
    | none =>
      exfalso
      have ht : rebase_state_type repo = .none := by simp [rebase_state_type, hap, hm]
      simp only [rebase_state, ht] at h
      simp at h
    | some d =>
      have ht : rebase_state_type repo = .merge := by simp [rebase_state_type, hap, hm]
      refine ⟨by simp [hm], rfl, ?_⟩
      simp only [rebase_state, ht] at h
      repeat' split at h
      all_goals first
        | (rw [Except.ok.injEq] at h; rw [← h])
        | exact absurd h (by simp)

/-- A forced symbolic reference creation rewrites exactly that
reference. -/
theorem symbolic_create_ok (r : Repo) (nm tgt : String) (r2 : Repo)
    (h : git_reference_symbolic_create r nm (some tgt) = .ok r2) :
    r2.refs = assocSet r.refs nm (.symbolic tgt) ∧ r2.mergeDir = r.mergeDir := by
  unfold git_reference_symbolic_create at h
  rw [Except.ok.injEq] at h
  subst h
  exact ⟨rfl, rfl⟩

/-- C10: `finish` is not atomic on failure.  It moves the original branch
reference to the terminal commit (CAS against `orig_head_id`) and
re-creates `HEAD` as a symbolic reference before it copies notes and
before it deletes the state directory; hence when note propagation fails
(for example on a malformed `rewritten` file), `finish` returns that error
while the branch and `HEAD` updates persist and the state directory
remains on disk. -/
theorem C10_finish_not_atomic (repo : Repo) (signature : Sig)
    (gopts : Option RebaseOptions) (st : RebaseState) (name : String)
    (terminal_id : Oid) (tc : CommitObj) (repo1 repo2 repoN : Repo) (e : GErr)
    (hload : rebase_state repo = .ok st)
    (hname : st.origHeadName = some name)
    (hnh : name ≠ "HEAD")
    (hterm : git_repository_head repo = .ok terminal_id)
    (htc : odbLookup repo terminal_id = some tc)
    (hcas : git_reference_create_matching repo (some name) terminal_id st.origHeadId = .ok repo1)
    (hsym : git_reference_symbolic_create repo1 "HEAD" (some name) = .ok repo2)
    (hnotes : rebase_copy_notes repo2 st signature (rebase_normalize_opts repo gopts) =
      (.error e, repoN)) :
    git_rebase_finish repo signature gopts = (.error e, repoN) ∧
    refLookup repoN name = some (.direct terminal_id) ∧
    refLookup repoN "HEAD" = some (.symbolic name) ∧
    repoN.mergeDir = repo.mergeDir ∧
    repo.mergeDir.isSome := by
  have hms := rebase_state_ok_merge repo st hload
  obtain ⟨hcasRefs, hcasDir⟩ := create_matching_ok _ _ _ _ _ hcas
  obtain ⟨hsymRefs, hsymDir⟩ := symbolic_create_ok _ _ _ _ hsym
  have hNsnd : (rebase_copy_notes repo2 st signature (rebase_normalize_opts repo gopts)).2 = repoN :=
    congrArg Prod.snd hnotes
  obtain ⟨hpresRefs, hpresDir⟩ :=
    copy_notes_preserves repo2 st signature (rebase_normalize_opts repo gopts)
  have hNrefs : repoN.refs = repo2.refs := by rw [← hNsnd]; exact hpresRefs
  have hNdir : repoN.mergeDir = repo2.mergeDir := by rw [← hNsnd]; exact hpresDir
  refine ⟨?_, ?_, ?_, ?_, hms.1⟩
  · simp only [git_rebase_finish, hload, hterm, htc, hname, hcas, hsym, hnotes]
  · simp only [refLookup]
    rw [hNrefs, hsymRefs, assocGet_set_ne _ _ _ _ (fun hh => hnh hh.symm), hcasRefs,
      assocGet_set_self]
  · simp only [refLookup]
    rw [hNrefs, hsymRefs, assocGet_set_self]
  · rw [hNdir, hsymDir, hcasDir]

/-- Witness for C10: finishing `repoFin` (malformed `rewritten`, note
propagation enabled) fails at line 1 while the branch has moved to the
terminal commit 3, HEAD is symbolic again, and the state directory is
still present. -/
theorem C10_finish_not_atomic_witness :
    git_rebase_finish repoFin sigA (some optsNotes) =
      (.error (errRewritten 1), (git_rebase_finish repoFin sigA (some optsNotes)).2) ∧
    refLookup (git_rebase_finish repoFin sigA (some optsNotes)).2 "refs/heads/topic" =
      some (.direct 3) ∧
    refLookup (git_rebase_finish repoFin sigA (some optsNotes)).2 "HEAD" =
      some (.symbolic "refs/heads/topic") ∧
    (git_rebase_finish repoFin sigA (some optsNotes)).2.mergeDir = repoFin.mergeDir := by
  obtain ⟨h1, h2, h3, h4, -⟩ := C10_finish_not_atomic repoFin sigA (some optsNotes)
    ⟨.merge, false, some "refs/heads/topic", 2, 3, ⟨1, 1, "onto-label", some (2, cTopic)⟩⟩
    "refs/heads/topic" 3 cOnto
    { repoFin with refs := [("HEAD", .direct 3), ("refs/heads/topic", .direct 3)],
                   trace := [.setRef "refs/heads/topic" (.direct 3)] }
    { repoFin with refs := [("HEAD", .symbolic "refs/heads/topic"), ("refs/heads/topic", .direct 3)],
                   trace := [.setRef "refs/heads/topic" (.direct 3),
                             .setRef "HEAD" (.symbolic "refs/heads/topic")] }
    { repoFin with refs := [("HEAD", .symbolic "refs/heads/topic"), ("refs/heads/topic", .direct 3)],
                   trace := [.setRef "refs/heads/topic" (.direct 3),
                             .setRef "HEAD" (.symbolic "refs/heads/topic")] }
    (errRewritten 1) (by rfl) rfl (by decide) (by rfl) (by rfl) (by rfl) (by rfl) (by rfl)
  have hsnd := congrArg Prod.snd h1
  exact ⟨Prod.ext (congrArg Prod.fst h1) rfl, by rw [hsnd]; try exact h2,
    by rw [hsnd]; try exact h3, by rw [hsnd]; try exact h4⟩

/-- `rebase_setupfile` leaves `ORIG_HEAD` alone and keeps the directory
present. -/
theorem setupfile_origHead_dir (r : Repo) (f : String) (a : Bool) (c : String) (r2 : Repo)
    (h : rebase_setupfile r f a c = .ok r2) :
    r2.origHead = r.origHead ∧ r2.mergeDir.isSome := by
  unfold rebase_setupfile at h
  split at h
  · exact absurd h (by simp)
  · split at h
    all_goals (rw [Except.ok.injEq] at h; subst h; exact ⟨rfl, rfl⟩)

/-- The commit-file loop leaves `ORIG_HEAD` alone. -/
theorem setup_commits_origHead (walk : List Oid) :
    ∀ (r : Repo) (c : Nat), (rebase_setup_commits r walk c).2.origHead = r.origHead := by
  induction walk with
  | nil => intro r c; rfl
  | cons id rest ih =>
    intro r c
    rw [rebase_setup_commits]
    split
    · rfl
    split
    · exact ih r c
    · split
      · rfl
      · rename_i commit hmerge r1 hw
        exact (ih r1 (c + 1)).trans (setupfile_origHead_dir _ _ _ _ _ hw).1

/-- `rebase_setup_merge` leaves `ORIG_HEAD` alone, whatever its result. -/
theorem setup_merge_origHead (r : Repo) (b : MergeHead) (u : Option MergeHead)
    (o : MergeHead) (opts : RebaseOptions) :
    ∀ res r1, rebase_setup_merge r b u o opts = (res, r1) → r1.origHead = r.origHead := by
  intro res r1 h
  simp only [rebase_setup_merge] at h
  split at h
  · rw [Prod.mk.injEq] at h
    rw [← h.2]
  split at h
  · rw [Prod.mk.injEq] at h
    rw [← h.2]
  split at h
  · rename_i e repo1 hsc
    rw [Prod.mk.injEq] at h
    rw [← h.2]
    have hoh := setup_commits_origHead (git_revwalk r.odb b.oid (u.getD o).oid) r 0
    rw [congrArg Prod.snd hsc] at hoh
    exact hoh
  · rename_i cnt repo1 hsc
    have h1 : repo1.origHead = r.origHead := by
      have hoh := setup_commits_origHead (git_revwalk r.odb b.oid (u.getD o).oid) r 0
      rw [congrArg Prod.snd hsc] at hoh
      exact hoh
    split at h
    · rw [Prod.mk.injEq] at h
      rw [← h.2]
      exact h1
    · rename_i repo2 hw2
      have h2 := (setupfile_origHead_dir _ _ _ _ _ hw2).1
      split at h
      · rw [Prod.mk.injEq] at h
        rw [← h.2]
        exact h2.trans h1
      · rename_i repo3 hw3
        have h3 := (setupfile_origHead_dir _ _ _ _ _ hw3).1
        rw [Prod.mk.injEq] at h
        rw [← h.2]
        exact (h3.trans h2).trans h1

/-- On success, `rebase_setup_merge` ends with the state directory
present. -/
theorem setup_merge_ok_dir (r : Repo) (b : MergeHead) (u : Option MergeHead)
    (o : MergeHead) (opts : RebaseOptions) (r1 : Repo)
    (h : rebase_setup_merge r b u o opts = (.ok (), r1)) : r1.mergeDir.isSome := by
  simp only [rebase_setup_merge] at h
  repeat' split at h
  all_goals first
    | (rename_i repoX hwX
       rw [Prod.mk.injEq] at h
       rw [← h.2]
       exact (setupfile_origHead_dir _ _ _ _ _ hwX).2)
    | exact absurd h (by simp)

/-- Removing the state files leaves no directory and `ORIG_HEAD` alone. -/
theorem cleanup_files_fields (r : Repo) :
    (git_repository_cleanup_files r).mergeDir = none ∧
    (git_repository_cleanup_files r).origHead = r.origHead := by
  unfold git_repository_cleanup_files
  split
  · exact ⟨rfl, rfl⟩
  · rename_i hnone
    exact ⟨hnone, rfl⟩

/-- After the body of `rebase_setup` runs on a repository without a state
directory, `ORIG_HEAD` holds the branch tip — on success and on failure
alike (the write happens right after `mkdir`). -/
theorem setup_inner_origHead (repo : Repo) (branch : MergeHead)
    (upstream : Option MergeHead) (onto : MergeHead) (opts : RebaseOptions)
    (hdir : repo.mergeDir = none) :
    ∀ res r1, rebase_setup_inner repo branch upstream onto opts = (res, r1) →
      r1.origHead = some branch.oid := by
  intro res r1 h
  simp only [rebase_setup_inner, hdir, git_repository_set_orig_head] at h
  split at h
  · rw [Prod.mk.injEq] at h
    rw [← h.2]
  · rename_i repo3 hw3
    have h3 := (setupfile_origHead_dir _ _ _ _ _ hw3).1
    split at h
    · rw [Prod.mk.injEq] at h
      rw [← h.2]
      exact h3
    · rename_i repo4 hw4
      have h4 := (setupfile_origHead_dir _ _ _ _ _ hw4).1
      split at h
      · rw [Prod.mk.injEq] at h
        rw [← h.2]
        exact h4.trans h3
      · rename_i repo5 hw5
        have h5 := (setupfile_origHead_dir _ _ _ _ _ hw5).1
        split at h
        · rw [Prod.mk.injEq] at h
          rw [← h.2]
          exact (h5.trans h4).trans h3
        · rename_i repo6 hw6
          have h6 := (setupfile_origHead_dir _ _ _ _ _ hw6).1
          have hm := setup_merge_origHead repo6 branch upstream onto opts res r1 h
          exact hm.trans (((h6.trans h5).trans h4).trans h3)

/-- `git_checkout_head` never touches the state directory. -/
theorem checkout_head_dir (r : Repo) : (git_checkout_head r).2.mergeDir = r.mergeDir := by
  unfold git_checkout_head
  repeat' split
  all_goals rfl

/-- On success, the body of `rebase_setup` ends with the directory
present. -/
theorem setup_inner_ok_dir (repo : Repo) (b : MergeHead) (u : Option MergeHead)
    (o : MergeHead) (opts : RebaseOptions) (r1 : Repo)
    (h : rebase_setup_inner repo b u o opts = (.ok (), r1)) : r1.mergeDir.isSome := by
  simp only [rebase_setup_inner, git_repository_set_orig_head] at h
  split at h
  · exact absurd h (by simp)
  · repeat' split at h
    all_goals first
      | exact setup_merge_ok_dir _ _ _ _ _ _ h
      | exact absurd h (by simp)

/-- On success, `rebase_setup` ends with the directory present. -/
theorem setup_ok_dir (repo : Repo) (b : MergeHead) (u : Option MergeHead)
    (o : MergeHead) (opts : RebaseOptions) (r1 : Repo)
    (h : rebase_setup repo b u o opts = (.ok (), r1)) : r1.mergeDir.isSome := by
  unfold rebase_setup at h
  split at h
  · rename_i u2 repoX hin
    rw [Prod.mk.injEq] at h
    rw [← h.2]
    exact setup_inner_ok_dir _ _ _ _ _ _ hin
  · exact absurd h (by simp)

/-- C4 (counterexample): `init` on a clean repository with an onto oid that
is not in the object database passes all preconditions and the whole setup
phase, then fails while checking out onto's tree — and returns with the
state directory still present (the `ORIG_HEAD` write is also in place).
The claim that the state directory is removed on *any* failure after
`mkdir`, including checkout failures, is therefore false. -/
theorem C4_cleanup_scope_counterexample :
    (git_rebase repoInit branchTopic (some upMaster) (some ontoMissing) sigA none).1 =
      .error errObjectNotFound ∧
    (git_rebase repoInit branchTopic (some upMaster) (some ontoMissing) sigA none).2.mergeDir.isSome = true ∧
    (git_rebase repoInit branchTopic (some upMaster) (some ontoMissing) sigA none).2.origHead = some 2 :=
  ⟨by rfl, by rfl, by rfl⟩

/-- C4 (amended): if `init` fails inside `rebase_setup` — after `mkdir`,
while writing the state files or enumerating commits — the state directory
is removed before returning while the `ORIG_HEAD` write is left intact;
but when setup succeeds and the subsequent HEAD move/checkout fails, the
state directory is left in place. -/
theorem C4_cleanup_scope :
    (∀ repo branch upstream onto opts e repo1, repo.mergeDir = none →
      rebase_setup repo branch upstream onto opts = (.error e, repo1) →
      repo1.mergeDir = none ∧ repo1.origHead = some branch.oid) ∧
    (∀ repo branch upstream onto signature gopts e repoS repoF,
      (upstream.isSome || onto.isSome) = true →
      optsVersionOk gopts = true →
      git_repository_ensure_not_bare repo = .ok () →
      rebase_ensure_not_in_progress repo = .ok () →
      rebase_ensure_not_dirty repo = .ok () →
      rebase_setup repo branch upstream (rebase_eff_onto branch upstream onto)
        (rebase_normalize_opts repo gopts) = (.ok (), repoS) →
      git_checkout_head (git_reference_create repoS "HEAD"
        (rebase_eff_onto branch upstream onto).oid) = (.error e, repoF) →
      git_rebase repo branch upstream onto signature gopts = (.error e, repoF) ∧
      repoF.mergeDir = repoS.mergeDir ∧ repoS.mergeDir.isSome = true) := by
  constructor
  · intro repo branch upstream onto opts e repo1 hdir h
    unfold rebase_setup at h
    split at h
    · exact absurd h (by simp)
    · rename_i eX repoX hin
      rw [Prod.mk.injEq] at h
      rw [← h.2]
      refine ⟨(cleanup_files_fields repoX).1, ?_⟩
      rw [(cleanup_files_fields repoX).2]
      exact setup_inner_origHead repo branch upstream onto opts hdir _ _ hin
  · intro repo branch upstream onto signature gopts e repoS repoF hsome hver hbare
      hprog hdirty hsetup hchk
    refine ⟨?_, ?_, setup_ok_dir _ _ _ _ _ _ hsetup⟩
    · simp only [git_rebase, hsome, hver, hbare, hprog, hdirty, hsetup, hchk]
      simp
    · have hpres := checkout_head_dir
        (git_reference_create repoS "HEAD" (rebase_eff_onto branch upstream onto).oid)
      rw [congrArg Prod.snd hchk] at hpres
      exact hpres
  
/-- Witness for the amended C4: setting up a rebase whose branch tip does
not exist in the object database fails after `mkdir`; the directory is
gone, `ORIG_HEAD` holds the branch oid. -/
theorem C4_cleanup_scope_witness :
    (rebase_setup repoInit ⟨some "refs/heads/x", 55⟩ (some upMaster) ontoGood
      GIT_REBASE_OPTIONS_INIT).2.mergeDir = none ∧
    (rebase_setup repoInit ⟨some "refs/heads/x", 55⟩ (some upMaster) ontoGood
      GIT_REBASE_OPTIONS_INIT).2.origHead = some 55 := by
  have h : rebase_setup repoInit ⟨some "refs/heads/x", 55⟩ (some upMaster) ontoGood
      GIT_REBASE_OPTIONS_INIT = (.error errObjectNotFound,
        (rebase_setup repoInit ⟨some "refs/heads/x", 55⟩ (some upMaster) ontoGood
          GIT_REBASE_OPTIONS_INIT).2) := Prod.ext (by rfl) rfl
  exact C4_cleanup_scope.1 repoInit ⟨some "refs/heads/x", 55⟩ (some upMaster) ontoGood
    GIT_REBASE_OPTIONS_INIT errObjectNotFound _ rfl h

/-- Folding one more digit. -/
theorem decParseNat_append (a : List Char) (c : Char) :
    decParseNat (a ++ [c]) = decParseNat a * 10 + digitVal c := by
  simp [decParseNat, List.foldl_append]

/-- `digitVal` inverts `hexDigitChar` on decimal digits. -/
theorem digitVal_hexDigitChar : ∀ d : Nat, d < 10 → digitVal (hexDigitChar d) = d := by
  decide

/-- Round trip for the fuelled decimal printer. -/
theorem decParseNat_natToDecAux : ∀ fuel n, n < fuel →
    decParseNat (natToDecAux fuel n) = n := by
  intro fuel
  induction fuel with
  | zero => intro n h; omega
  | succ fuel ih =>
    intro n h
    rw [natToDecAux]
    split
    · rename_i h10
      simp [decParseNat, digitVal_hexDigitChar n h10]
    · rename_i h10
      rw [decParseNat_append]
      have hdiv : n / 10 < fuel := by omega
      rw [ih (n / 10) hdiv, digitVal_hexDigitChar (n % 10) (Nat.mod_lt _ (by omega))]
      omega

/-- Round trip for the decimal printer. -/
theorem decParseNat_natToDec (n : Nat) : decParseNat (natToDec n) = n :=
  decParseNat_natToDecAux (n + 1) n (Nat.lt_succ_self n)

/-- The decimal printer is injective. -/
theorem natToDec_inj {m n : Nat} (h : natToDec m = natToDec n) : m = n := by
  rw [← decParseNat_natToDec m, ← decParseNat_natToDec n, h]

/-- The decimal rendering is injective. -/
theorem natToStr_inj {m n : Nat} (h : natToStr m = natToStr n) : m = n :=
  natToDec_inj (congrArg String.data h)

/-- The characters of a `cmt.<j>` file name. -/
theorem cmt_name_data (j : Nat) :
    ("cmt." ++ natToStr j).data = 'c' :: 'm' :: 't' :: '.' :: natToDec j := by
  rw [String.data_append]
  rfl

/-- `cmt.<i>` file names are injective in the number. -/
theorem cmt_name_inj {i j : Nat} (h : ("cmt." ++ natToStr i) = "cmt." ++ natToStr j) :
    i = j := by
  have hd := congrArg String.data h
  rw [cmt_name_data, cmt_name_data] at hd
  simp only [List.cons.injEq, true_and] at hd
  exact natToDec_inj hd

/-- A name that does not start with `c` is no `cmt.<j>` file name. -/
theorem fixed_ne_cmt (s : String) (hs : s.data.head? ≠ some 'c') (j : Nat) :
    s ≠ "cmt." ++ natToStr j := by
  intro h
  apply hs
  rw [h, cmt_name_data]
  rfl

/-- `maxByTime` picks an element of its input. -/
theorem maxByTime_mem (odb : List (Oid × CommitObj)) :
    ∀ l x, maxByTime odb l = some x → x ∈ l := by
  intro l
  induction l with
  | nil => intro x h; simp [maxByTime] at h
  | cons a rest ih =>
    intro x h
    rw [maxByTime] at h
    split at h
    · rw [Option.some.injEq] at h
      simp [← h]
    · rename_i y hy
      rw [Option.some.injEq] at h
      by_cases ht : commitTime odb y ≤ commitTime odb a
      · rw [if_pos ht] at h
        simp [← h]
      · rw [if_neg ht] at h
        exact List.mem_cons_of_mem a (h ▸ ih y hy)

/-- `maxByTime` yields something on a non-empty list. -/
theorem maxByTime_ne_nil (odb : List (Oid × CommitObj)) (l : List Oid)
    (h : l ≠ []) : (maxByTime odb l).isSome := by
  cases l with
  | nil => exact absurd rfl h
  | cons a rest =>
    rw [maxByTime]
    split <;> simp

/-- The walk's next pick is one of the candidates. -/
theorem pickNextCommit_mem (odb : List (Oid × CommitObj)) (cands : List Oid)
    (x : Oid) (h : pickNextCommit odb cands = some x) : x ∈ cands := by
  unfold pickNextCommit at h
  split at h
  · rename_i y hy
    rw [Option.some.injEq] at h
    exact List.mem_of_mem_filter (h ▸ maxByTime_mem odb _ y hy)
  · exact maxByTime_mem odb _ x h

/-- The walk only stops on an empty candidate set. -/
theorem pickNextCommit_none (odb : List (Oid × CommitObj)) (cands : List Oid)
    (h : pickNextCommit odb cands = none) : cands = [] := by
  unfold pickNextCommit at h
  split at h
  · simp at h
  · cases cands with
    | nil => rfl
    | cons a rest =>
      have hs := maxByTime_ne_nil odb (a :: rest) (by simp)
      rw [h] at hs
      simp at hs

/-- The newest-first enumeration is a permutation of the candidates. -/
theorem topoTimeSortAux_perm (odb : List (Oid × CommitObj)) :
    ∀ n cands, cands.length = n → (topoTimeSortAux odb n cands).Perm cands := by
  intro n
  induction n with
  | zero =>
    intro cands h
    rw [List.length_eq_zero] at h
    subst h
    simp [topoTimeSortAux]
  | succ n ih =>
    intro cands h
    rw [topoTimeSortAux]
    split
    · rename_i hnone
      rw [pickNextCommit_none odb cands hnone] at h
      simp at h
    · rename_i x hx
      have hmem := pickNextCommit_mem odb cands x hx
      have hlen : (cands.erase x).length = n := by
        rw [List.length_erase_of_mem hmem, h]
        omega
      have hperm := ih (cands.erase x) hlen
      exact (hperm.cons x).trans (List.perm_cons_erase hmem).symm

/-- `topoTimeSort` permutes its input. -/
theorem topoTimeSort_perm (odb : List (Oid × CommitObj)) (cands : List Oid) :
    (topoTimeSort odb cands).Perm cands :=
  topoTimeSortAux_perm odb cands.length cands rfl

/-- Membership in the walk output is membership in the walk set. -/
theorem revwalk_mem (odb : List (Oid × CommitObj)) (b u x : Oid) :
    x ∈ git_revwalk odb b u ↔ x ∈ walkSet odb b u := by
  unfold git_revwalk
  rw [List.mem_reverse]
  exact (topoTimeSort_perm odb _).mem_iff

/-- `insertUniq` preserves distinctness. -/
theorem insertUniq_nodup (l : List Oid) (x : Oid) (h : l.Nodup) :
    (insertUniq l x).Nodup := by
  unfold insertUniq
  split
  · exact h
  · rename_i hc
    rw [List.nodup_append]
    refine ⟨h, List.nodup_singleton x, ?_⟩
    intro a ha hax
    rw [List.mem_singleton] at hax
    subst hax
    exact hc (List.elem_eq_true_of_mem ha)

/-- Folding `insertUniq` preserves distinctness. -/
theorem foldl_insertUniq_nodup (xs : List Oid) :
    ∀ acc : List Oid, acc.Nodup → (xs.foldl insertUniq acc).Nodup := by
  induction xs with
  | nil => intro acc h; exact h
  | cons x rest ih =>
    intro acc h
    exact ih (insertUniq acc x) (insertUniq_nodup acc x h)

/-- One expansion round preserves distinctness. -/
theorem reachExpand_nodup (odb : List (Oid × CommitObj)) (seen : List Oid)
    (h : seen.Nodup) : (reachExpand odb seen).Nodup := by
  unfold reachExpand
  have haux : ∀ (l : List Oid) (acc : List Oid), acc.Nodup →
      (l.foldl (fun acc id => (commitParents odb id).foldl insertUniq acc) acc).Nodup := by
    intro l
    induction l with
    | nil => intro acc ha; exact ha
    | cons x rest ih =>
      intro acc ha
      exact ih _ (foldl_insertUniq_nodup (commitParents odb x) acc ha)
  exact haux seen seen h

/-- Iterated expansion preserves distinctness. -/
theorem reachIter_nodup (odb : List (Oid × CommitObj)) :
    ∀ n seen, List.Nodup seen → (reachIter odb n seen).Nodup := by
  intro n
  induction n with
  | zero => intro seen h; exact h
  | succ n ih => intro seen h; exact ih _ (reachExpand_nodup odb seen h)

/-- The reachable set has no duplicates. -/
theorem reachableFrom_nodup (odb : List (Oid × CommitObj)) (root : Oid) :
    (reachableFrom odb root).Nodup :=
  reachIter_nodup odb odb.length [root] (List.nodup_singleton root)

/-- The walk set has no duplicates. -/
theorem walkSet_nodup (odb : List (Oid × CommitObj)) (b u : Oid) :
    (walkSet odb b u).Nodup :=
  (reachableFrom_nodup odb b).filter _

/-- The walk output has no duplicates. -/
theorem revwalk_nodup (odb : List (Oid × CommitObj)) (b u : Oid) :
    (git_revwalk odb b u).Nodup := by
  unfold git_revwalk
  rw [List.nodup_reverse]
  exact (topoTimeSort_perm odb _).symm.nodup (walkSet_nodup odb b u)

/-- Binding a fresh key appends it. -/
theorem assocSet_append_fresh {κ β : Type} [DecidableEq κ] (l : List (κ × β))
    (k : κ) (v : β) (h : assocGet l k = none) : assocSet l k v = l ++ [(k, v)] := by
  induction l with
  | nil => rfl
  | cons p rest ih =>
    by_cases hp : p.1 = k
    · simp [assocGet, hp] at h
    · simp only [assocGet, if_neg hp] at h
      simp [assocSet, hp, ih h]

/-- Looking up `cmt.<cnt+i+1>` in the commit-file block hits the `i`-th
plan entry. -/
theorem cmtFilesList_get_hit : ∀ (l : List Oid) (cnt i : Nat) (x : Oid),
    l[i]? = some x →
    assocGet (cmtFilesList cnt l) ("cmt." ++ natToStr (cnt + i + 1)) =
      some (oid_str x ++ "\n") := by
  intro l
  induction l with
  | nil => intro cnt i x h; simp at h
  | cons a rest ih =>
    intro cnt i x h
    cases i with
    | zero =>
      rw [List.getElem?_cons_zero, Option.some.injEq] at h
      subst h
      simp [cmtFilesList, assocGet]
    | succ i =>
      rw [List.getElem?_cons_succ] at h
      have harith : cnt + (i + 1) + 1 = (cnt + 1) + i + 1 := by omega
      rw [harith]
      have hne : ("cmt." ++ natToStr (cnt + 1)) ≠ "cmt." ++ natToStr ((cnt + 1) + i + 1) := by
        intro hc
        have := cmt_name_inj hc
        omega
      simp only [cmtFilesList, assocGet, if_neg hne]
      exact ih (cnt + 1) i x h

/-- Looking up any name outside the written range misses the commit-file
block. -/
theorem cmtFilesList_get_miss : ∀ (l : List Oid) (cnt : Nat) (s : String),
    (∀ j, cnt < j → j ≤ cnt + l.length → ("cmt." ++ natToStr j) ≠ s) →
    assocGet (cmtFilesList cnt l) s = none := by
  intro l
  induction l with
  | nil => intro cnt s hs; rfl
  | cons a rest ih =>
    intro cnt s hs
    simp only [cmtFilesList, assocGet]
    rw [if_neg (hs (cnt + 1) (by omega) (by simp only [List.length_cons]; omega))]
    exact ih (cnt + 1) s (fun j h1 h2 => hs j (by omega)
      (by simp only [List.length_cons]; omega))

/-- The walk loop of the initiator: starting from directory contents `d`
with no `cmt.<j>` files above `cnt`, a successful run appends exactly the
commit files of the filtered walk and returns their count. -/
theorem setup_commits_spec : ∀ (walk : List Oid) (r : Repo) (cnt : Nat)
    (d : List (String × String)) (cntF : Nat) (r1 : Repo),
    r.mergeDir = some d →
    (∀ j, cnt < j → assocGet d ("cmt." ++ natToStr j) = none) →
    rebase_setup_commits r walk cnt = (.ok cntF, r1) →
    r1.mergeDir = some (d ++ cmtFilesList cnt (walk.filter (fun id => !(isMergeCommit r.odb id)))) ∧
    cntF = cnt + (walk.filter (fun id => !(isMergeCommit r.odb id))).length ∧
    r1.odb = r.odb ∧ r1.refs = r.refs := by
  intro walk
  induction walk with
  | nil =>
    intro r cnt d cntF r1 hdir hfresh h
    rw [rebase_setup_commits, Prod.mk.injEq] at h
    obtain ⟨h1, h2⟩ := h
    rw [Except.ok.injEq] at h1
    subst h2
    subst h1
    simp [hdir, cmtFilesList]
  | cons id rest ih =>
    intro r cnt d cntF r1 hdir hfresh h
    rw [rebase_setup_commits] at h
    split at h
    · exact absurd h (by simp)
    · rename_i commit hc
      split at h
      · rename_i hm
        have hmc : isMergeCommit r.odb id = true := by
          unfold isMergeCommit
          unfold odbLookup at hc
          rw [hc]
          simpa using hm
        have hres := ih r cnt d cntF r1 hdir hfresh h
        simpa [List.filter_cons, hmc] using hres
      · rename_i hm
        split at h
        · exact absurd h (by simp)
        · rename_i rA hw
          have hmc : isMergeCommit r.odb id = false := by
            unfold isMergeCommit
            unfold odbLookup at hc
            rw [hc]
            simpa using hm
          have hwfields : rA.mergeDir = some (d ++ [("cmt." ++ natToStr (cnt + 1), oid_str id ++ "\n")]) ∧
              rA.odb = r.odb ∧ rA.refs = r.refs := by
            unfold rebase_setupfile at hw
            rw [hdir] at hw
            simp only [Bool.false_eq_true, if_false] at hw
            rw [Except.ok.injEq] at hw
            rw [← hw]
            refine ⟨?_, rfl, rfl⟩
            simp only
            rw [assocSet_append_fresh d _ _ (hfresh (cnt + 1) (by omega))]
          have hfreshA : ∀ j, cnt + 1 < j →
              assocGet (d ++ [("cmt." ++ natToStr (cnt + 1), oid_str id ++ "\n")])
                ("cmt." ++ natToStr j) = none := by
            intro j hj
            rw [assocGet_append, hfresh j (by omega)]
            simp only [assocGet]
            rw [if_neg (fun hc2 => by have := cmt_name_inj hc2; omega)]
          have hres := ih rA (cnt + 1) _ cntF r1 hwfields.1 hfreshA h
          simp only [List.filter_cons, hmc, Bool.not_false, if_true]
          rw [hwfields.2.1] at hres
          refine ⟨?_, ?_, hres.2.2.1, hres.2.2.2.trans hwfields.2.2⟩
          · rw [hres.1]
            rw [List.append_assoc]
            rfl
          · rw [hres.2.1]
            rw [List.length_cons]
            omega

/-- No `cmt.<j>` file name equals `end`. -/
theorem end_ne_cmt (j : Nat) : ("cmt." ++ natToStr j) ≠ "end" :=
  (fixed_ne_cmt "end" (by decide) j).symm

/-- No `cmt.<j>` file name equals `onto_name`. -/
theorem onto_name_ne_cmt (j : Nat) : ("cmt." ++ natToStr j) ≠ "onto_name" :=
  (fixed_ne_cmt "onto_name" (by decide) j).symm

/-- A successful `rebase_setup_merge` appends the commit files of the
filtered walk, then `end` with their count, then `onto_name`. -/
theorem setup_merge_spec (r : Repo) (b : MergeHead) (u : Option MergeHead)
    (o : MergeHead) (opts : RebaseOptions) (d : List (String × String)) (r1 : Repo)
    (hdir : r.mergeDir = some d)
    (hfresh : ∀ j, 0 < j → assocGet d ("cmt." ++ natToStr j) = none)
    (hend : assocGet d "end" = none)
    (honto : assocGet d "onto_name" = none)
    (h : rebase_setup_merge r b u o opts = (.ok (), r1)) :
    r1.mergeDir = some ((d ++ cmtFilesList 0 (rebasePlan r.odb b.oid (u.getD o).oid)) ++
      [("end", natToStr (rebasePlan r.odb b.oid (u.getD o).oid).length ++ "\n"),
       ("onto_name", rebase_onto_name o ++ "\n")]) ∧
    r1.odb = r.odb ∧ r1.refs = r.refs := by
  simp only [rebase_setup_merge] at h
  split at h
  · exact absurd h (by simp)
  split at h
  · exact absurd h (by simp)
  split at h
  · exact absurd h (by simp)
  rename_i cnt rA hsc
  obtain ⟨hAdir, hAcnt, hAodb, hArefs⟩ :=
    setup_commits_spec (git_revwalk r.odb b.oid (u.getD o).oid) r 0 d cnt rA hdir
      (fun j hj => hfresh j hj) hsc
  have hgetEnd : assocGet (d ++ cmtFilesList 0
      (List.filter (fun id => !isMergeCommit r.odb id) (git_revwalk r.odb b.oid (u.getD o).oid))) "end" = none := by
    rw [assocGet_append, hend]
    exact cmtFilesList_get_miss _ 0 "end" (fun j h1 h2 => end_ne_cmt j)
  split at h
  · exact absurd h (by simp)
  rename_i rB hwEnd
  have hBfields : rB.mergeDir = some ((d ++ cmtFilesList 0
        (List.filter (fun id => !isMergeCommit r.odb id) (git_revwalk r.odb b.oid (u.getD o).oid))) ++
        [("end", natToStr cnt ++ "\n")]) ∧ rB.odb = rA.odb ∧ rB.refs = rA.refs := by
    unfold rebase_setupfile at hwEnd
    rw [hAdir] at hwEnd
    simp only [Bool.false_eq_true, if_false] at hwEnd
    rw [Except.ok.injEq] at hwEnd
    rw [← hwEnd]
    refine ⟨?_, rfl, rfl⟩
    simp only
    rw [assocSet_append_fresh _ _ _ hgetEnd]
  split at h
  · exact absurd h (by simp)
  rename_i rC hwOnto
  have hgetOnto : assocGet ((d ++ cmtFilesList 0
      (List.filter (fun id => !isMergeCommit r.odb id) (git_revwalk r.odb b.oid (u.getD o).oid))) ++
      [("end", natToStr cnt ++ "\n")]) "onto_name" = none := by
    rw [assocGet_append]
    rw [assocGet_append, honto, cmtFilesList_get_miss _ 0 "onto_name" (fun j h1 h2 => onto_name_ne_cmt j)]
    simp [assocGet]
  have hCfields : rC.mergeDir = some (((d ++ cmtFilesList 0
        (List.filter (fun id => !isMergeCommit r.odb id) (git_revwalk r.odb b.oid (u.getD o).oid))) ++
        [("end", natToStr cnt ++ "\n")]) ++
        [("onto_name", rebase_onto_name o ++ "\n")]) ∧ rC.odb = rB.odb ∧ rC.refs = rB.refs := by
    unfold rebase_setupfile at hwOnto
    rw [hBfields.1] at hwOnto
    simp only [Bool.false_eq_true, if_false] at hwOnto
    rw [Except.ok.injEq] at hwOnto
    rw [← hwOnto]
    refine ⟨?_, rfl, rfl⟩
    simp only
    rw [assocSet_append_fresh _ _ _ hgetOnto]
  rw [Prod.mk.injEq] at h
  rw [← h.2]
  refine ⟨?_, hCfields.2.1.trans (hBfields.2.1.trans hAodb),
    hCfields.2.2.trans (hBfields.2.2.trans hArefs)⟩
  rw [hCfields.1]
  simp only [rebasePlan]
  rw [hAcnt]
  simp [List.append_assoc]

/-- A successful truncating write binds the file in the directory. -/
theorem setupfile_ok_spec (r : Repo) (f : String) (c : String)
    (d : List (String × String)) (r2 : Repo) (hd : r.mergeDir = some d)
    (h : rebase_setupfile r f false c = .ok r2) :
    r2.mergeDir = some (assocSet d f c) ∧ r2.odb = r.odb ∧ r2.refs = r.refs := by
  unfold rebase_setupfile at h
  rw [hd] at h
  simp only [Bool.false_eq_true, if_false] at h
  rw [Except.ok.injEq] at h
  rw [← h]
  exact ⟨rfl, rfl, rfl⟩

/-- A successful setup body produces exactly the base files, the commit
files of the plan, `end` and `onto_name`, in that order. -/
theorem setup_inner_spec (repo : Repo) (b : MergeHead) (u : Option MergeHead)
    (o : MergeHead) (opts : RebaseOptions) (r1 : Repo)
    (hdir : repo.mergeDir = none)
    (h : rebase_setup_inner repo b u o opts = (.ok (), r1)) :
    r1.mergeDir = some ((baseSetupFiles b o opts ++
      cmtFilesList 0 (rebasePlan repo.odb b.oid (u.getD o).oid)) ++
      [("end", natToStr (rebasePlan repo.odb b.oid (u.getD o).oid).length ++ "\n"),
       ("onto_name", rebase_onto_name o ++ "\n")]) ∧
    r1.odb = repo.odb ∧ r1.refs = repo.refs := by
  simp only [rebase_setup_inner, hdir, git_repository_set_orig_head] at h
  split at h
  · exact absurd h (by simp)
  rename_i r3 hw3
  split at h
  · exact absurd h (by simp)
  rename_i r4 hw4
  split at h
  · exact absurd h (by simp)
  rename_i r5 hw5
  split at h
  · exact absurd h (by simp)
  rename_i r6 hw6
  obtain ⟨hd3, ho3, hr3⟩ := setupfile_ok_spec _ _ _ [] _ rfl hw3
  obtain ⟨hd4, ho4, hr4⟩ := setupfile_ok_spec _ _ _ _ _ hd3 hw4
  obtain ⟨hd5, ho5, hr5⟩ := setupfile_ok_spec _ _ _ _ _ hd4 hw5
  obtain ⟨hd6, ho6, hr6⟩ := setupfile_ok_spec _ _ _ _ _ hd5 hw6
  have hd6' : r6.mergeDir = some (baseSetupFiles b o opts) := by
    rw [hd6]
    rfl
  have hfreshB : ∀ j, 0 < j →
      assocGet (baseSetupFiles b o opts) ("cmt." ++ natToStr j) = none := by
    intro j hj
    simp only [baseSetupFiles, assocGet,
      if_neg (fixed_ne_cmt "head-name" (by decide) j),
      if_neg (fixed_ne_cmt "onto" (by decide) j),
      if_neg (fixed_ne_cmt "orig-head" (by decide) j),
      if_neg (fixed_ne_cmt "quiet" (by decide) j)]
  obtain ⟨hdir1, hodb1, hrefs1⟩ := setup_merge_spec r6 b u o opts
    (baseSetupFiles b o opts) r1 hd6' hfreshB (by rfl) (by rfl) h
  have hodb6 : r6.odb = repo.odb := ((ho6.trans ho5).trans ho4).trans ho3
  have hrefs6 : r6.refs = repo.refs := ((hr6.trans hr5).trans hr4).trans hr3
  rw [hodb6] at hdir1
  exact ⟨hdir1, hodb1.trans hodb6, hrefs1.trans hrefs6⟩

/-- Passing the in-progress check means neither state directory exists. -/
theorem ensure_not_in_progress_ok (repo : Repo) (u : Unit)
    (h : rebase_ensure_not_in_progress repo = .ok u) :
    repo.applyDir = none ∧ repo.mergeDir = none := by
  unfold rebase_ensure_not_in_progress at h
  split at h
  · exact absurd h (by simp)
  · rename_i hne
    have ht : rebase_state_type repo = .none := not_ne_iff.mp hne
    unfold rebase_state_type at ht
    by_cases ha : repo.applyDir.isSome
    · simp [ha] at ht
    · by_cases hm : repo.mergeDir.isSome
      · simp [ha, hm] at ht
      · exact ⟨Option.not_isSome_iff_eq_none.mp ha, Option.not_isSome_iff_eq_none.mp hm⟩

/-- A successful `init` leaves precisely the setup files in the merge
state directory. -/
theorem git_rebase_ok_spec (repo : Repo) (branch : MergeHead)
    (upstream onto : Option MergeHead) (signature : Sig)
    (gopts : Option RebaseOptions) (repoF : Repo)
    (h : git_rebase repo branch upstream onto signature gopts = (.ok (), repoF)) :
    repoF.mergeDir = some ((baseSetupFiles branch (rebase_eff_onto branch upstream onto)
        (rebase_normalize_opts repo gopts) ++
      cmtFilesList 0 (rebasePlan repo.odb branch.oid
        (rebase_eff_upstream branch upstream onto).oid)) ++
      [("end", natToStr (rebasePlan repo.odb branch.oid
          (rebase_eff_upstream branch upstream onto).oid).length ++ "\n"),
       ("onto_name", rebase_onto_name (rebase_eff_onto branch upstream onto) ++ "\n")]) := by
  simp only [git_rebase] at h
  split at h
  · exact absurd h (by simp)
  split at h
  · exact absurd h (by simp)
  split at h
  · exact absurd h (by simp)
  split at h
  · exact absurd h (by simp)
  rename_i uProg hprog
  split at h
  · exact absurd h (by simp)
  split at h
  · exact absurd h (by simp)
  rename_i uSetup repoS hsetup
  split at h
  · exact absurd h (by simp)
  rename_i uChk repoC hchk
  rw [Prod.mk.injEq] at h
  have hnone := ensure_not_in_progress_ok repo uProg hprog
  have hsinner : rebase_setup_inner repo branch upstream
      (rebase_eff_onto branch upstream onto) (rebase_normalize_opts repo gopts) =
      (.ok uSetup, repoS) := by
    unfold rebase_setup at hsetup
    split at hsetup
    · rename_i u2 repoX hin
      rw [Prod.mk.injEq] at hsetup
      rw [← hsetup.2]
      cases uSetup
      cases u2
      exact hin
    · exact absurd hsetup (by simp)
  cases uSetup
  obtain ⟨hSdir, hSodb, hSrefs⟩ := setup_inner_spec repo branch upstream
    (rebase_eff_onto branch upstream onto) (rebase_normalize_opts repo gopts)
    repoS hnone.2 hsinner
  have hCdir : repoC.mergeDir = repoS.mergeDir := by
    have := checkout_head_dir (git_reference_create repoS "HEAD"
      (rebase_eff_onto branch upstream onto).oid)
    rw [congrArg Prod.snd hchk] at this
    exact this
  rw [← h.2, hCdir, hSdir]
  simp only [rebase_eff_upstream]

/-- The four base files contain no `cmt.<j>` entry. -/
theorem baseSetupFiles_cmt_none (b o : MergeHead) (opts : RebaseOptions) (j : Nat) :
    assocGet (baseSetupFiles b o opts) ("cmt." ++ natToStr j) = none := by
  simp only [baseSetupFiles, assocGet,
    if_neg (fixed_ne_cmt "head-name" (by decide) j),
    if_neg (fixed_ne_cmt "onto" (by decide) j),
    if_neg (fixed_ne_cmt "orig-head" (by decide) j),
    if_neg (fixed_ne_cmt "quiet" (by decide) j)]

/-- Looking up `cmt.<i+1>` in a full setup directory hits the plan's
`i`-th entry. -/
theorem setupDir_cmt_hit (b o : MergeHead) (opts : RebaseOptions) (plan : List Oid)
    (e on2 : String) (i : Nat) (x : Oid) (h : plan[i]? = some x) :
    assocGet ((baseSetupFiles b o opts ++ cmtFilesList 0 plan) ++
      [("end", e), ("onto_name", on2)]) ("cmt." ++ natToStr (i + 1)) =
      some (oid_str x ++ "\n") := by
  rw [assocGet_append, assocGet_append, baseSetupFiles_cmt_none]
  have := cmtFilesList_get_hit plan 0 i x h
  rw [Nat.zero_add] at this
  rw [this]

/-- Looking up `cmt.<j>` outside `1..plan.length` misses. -/
theorem setupDir_cmt_miss (b o : MergeHead) (opts : RebaseOptions) (plan : List Oid)
    (e on2 : String) (j : Nat) (hj : plan.length < j ∨ j = 0) :
    assocGet ((baseSetupFiles b o opts ++ cmtFilesList 0 plan) ++
      [("end", e), ("onto_name", on2)]) ("cmt." ++ natToStr j) = none := by
  rw [assocGet_append, assocGet_append, baseSetupFiles_cmt_none]
  rw [cmtFilesList_get_miss plan 0 ("cmt." ++ natToStr j)
    (fun j2 h1 h2 => fun hc => by
      have := cmt_name_inj hc
      subst this
      rw [Nat.zero_add] at h2
      omega)]
  simp only [assocGet, if_neg (end_ne_cmt j).symm, if_neg (onto_name_ne_cmt j).symm]

/-- Looking up `end` in a full setup directory yields its contents. -/
theorem setupDir_end (b o : MergeHead) (opts : RebaseOptions) (plan : List Oid)
    (e on2 : String) :
    assocGet ((baseSetupFiles b o opts ++ cmtFilesList 0 plan) ++
      [("end", e), ("onto_name", on2)]) "end" = some e := by
  rw [assocGet_append, assocGet_append]
  rw [(by rfl : assocGet (baseSetupFiles b o opts) "end" = none)]
  rw [cmtFilesList_get_miss plan 0 "end" (fun j h1 h2 => end_ne_cmt j)]
  rfl

/-- Plan membership: reachable from the pushed tip, not reachable from the
hidden tip, not a merge commit. -/
theorem rebasePlan_mem (odb : List (Oid × CommitObj)) (b u x : Oid) :
    x ∈ rebasePlan odb b u ↔
      x ∈ reachableFrom odb b ∧ x ∉ reachableFrom odb u ∧
        isMergeCommit odb x = false := by
  unfold rebasePlan
  rw [List.mem_filter, revwalk_mem]
  unfold walkSet
  rw [List.mem_filter]
  constructor
  · rintro ⟨⟨hr, hnc⟩, hm⟩
    refine ⟨hr, by simpa using hnc, by simpa using hm⟩
  · rintro ⟨hr, hnc, hm⟩
    exact ⟨⟨hr, by simpa using hnc⟩, by simp [hm]⟩

/-- The plan lists each commit once. -/
theorem rebasePlan_nodup (odb : List (Oid × CommitObj)) (b u : Oid) :
    (rebasePlan odb b u).Nodup :=
  (revwalk_nodup odb b u).filter _

/-- C2: after every successful `init`, the files `cmt.1 … cmt.end` hold
exactly the commits reachable from branch and not from upstream that have
at most one parent (merge commits are skipped), numbered consecutively
from 1 in walk order; `cmt.0` and numbers beyond the count are absent, and
the `end` file holds their count. -/
theorem C2_merge_filter (repo : Repo) (branch : MergeHead)
    (upstream onto : Option MergeHead) (signature : Sig)
    (gopts : Option RebaseOptions) (repoF : Repo)
    (h : git_rebase repo branch upstream onto signature gopts = (.ok (), repoF)) :
    ∃ dir, repoF.mergeDir = some dir ∧
      (∀ i x, (rebasePlan repo.odb branch.oid
          (rebase_eff_upstream branch upstream onto).oid)[i]? = some x →
        assocGet dir ("cmt." ++ natToStr (i + 1)) = some (oid_str x ++ "\n")) ∧
      (∀ j, (rebasePlan repo.odb branch.oid
          (rebase_eff_upstream branch upstream onto).oid).length < j →
        assocGet dir ("cmt." ++ natToStr j) = none) ∧
      assocGet dir ("cmt." ++ natToStr 0) = none ∧
      assocGet dir "end" = some (natToStr (rebasePlan repo.odb branch.oid
        (rebase_eff_upstream branch upstream onto).oid).length ++ "\n") ∧
      (rebasePlan repo.odb branch.oid
        (rebase_eff_upstream branch upstream onto).oid).Nodup ∧
      (∀ x, x ∈ rebasePlan repo.odb branch.oid
          (rebase_eff_upstream branch upstream onto).oid ↔
        x ∈ reachableFrom repo.odb branch.oid ∧
        x ∉ reachableFrom repo.odb (rebase_eff_upstream branch upstream onto).oid ∧
        isMergeCommit repo.odb x = false) := by
  have hd := git_rebase_ok_spec repo branch upstream onto signature gopts repoF h
  refine ⟨_, hd, ?_, ?_, ?_, ?_, ?_, ?_⟩
  · intro i x hx
    exact setupDir_cmt_hit _ _ _ _ _ _ i x hx
  · intro j hj
    exact setupDir_cmt_miss _ _ _ _ _ _ j (Or.inl hj)
  · exact setupDir_cmt_miss _ _ _ _ _ _ 0 (Or.inr rfl)
  · exact setupDir_end _ _ _ _ _ _
  · exact rebasePlan_nodup _ _ _
  · intro x
    exact rebasePlan_mem _ _ _ x

/-- Witness for C2: rebasing `topic` (commit 2) over master (commit 1)
plans exactly `cmt.1 = commit 2` with `end = 1`. -/
theorem C2_merge_filter_witness :
    ∃ dir, (git_rebase repoInit branchTopic (some upMaster) (some ontoGood) sigA none).2.mergeDir =
        some dir ∧
      assocGet dir ("cmt." ++ natToStr 1) = some (oid_str 2 ++ "\n") ∧
      assocGet dir ("cmt." ++ natToStr 2) = none ∧
      assocGet dir "end" = some (natToStr 1 ++ "\n") := by
  have h : git_rebase repoInit branchTopic (some upMaster) (some ontoGood) sigA none =
      (.ok (), (git_rebase repoInit branchTopic (some upMaster) (some ontoGood) sigA none).2) :=
    Prod.ext (by rfl) rfl
  obtain ⟨dir, hdir, hhit, hmiss, h0, hend, hnd, hmem⟩ :=
    C2_merge_filter repoInit branchTopic (some upMaster) (some ontoGood) sigA none _ h
  have hlen : (rebasePlan repoInit.odb branchTopic.oid
      (rebase_eff_upstream branchTopic (some upMaster) (some ontoGood)).oid).length = 1 := by rfl
  rw [hlen] at hend
  exact ⟨dir, hdir, hhit 0 2 (by rfl), hmiss 2 (by rw [hlen]; omega), hend⟩

/-- C1: the commits to replay are enumerated by a revision walk pushing
`branch.oid` and hiding `upstream.oid` (spec-modelled: topological with
newest-first time tie-break, reversed by `GIT_SORT_REVERSE` so the oldest
commit comes first); the persisted plan lists the filtered walk in that
oldest-first order. -/
theorem C1_walk_enumeration (repo : Repo) (branch : MergeHead)
    (upstream onto : Option MergeHead) (signature : Sig)
    (gopts : Option RebaseOptions) (repoF : Repo)
    (h : git_rebase repo branch upstream onto signature gopts = (.ok (), repoF)) :
    ∃ dir, repoF.mergeDir = some dir ∧
      (∀ i x, (rebasePlan repo.odb branch.oid
          (rebase_eff_upstream branch upstream onto).oid)[i]? = some x →
        assocGet dir ("cmt." ++ natToStr (i + 1)) = some (oid_str x ++ "\n")) ∧
      rebasePlan repo.odb branch.oid (rebase_eff_upstream branch upstream onto).oid =
        (git_revwalk repo.odb branch.oid (rebase_eff_upstream branch upstream onto).oid).filter
          (fun id => !(isMergeCommit repo.odb id)) ∧
      git_revwalk repo.odb branch.oid (rebase_eff_upstream branch upstream onto).oid =
        (topoTimeSort repo.odb (walkSet repo.odb branch.oid
          (rebase_eff_upstream branch upstream onto).oid)).reverse := by
  have hd := git_rebase_ok_spec repo branch upstream onto signature gopts repoF h
  exact ⟨_, hd, fun i x hx => setupDir_cmt_hit _ _ _ _ _ _ i x hx, rfl, rfl⟩

/-- Witness for C1 at the concrete fixture. -/
theorem C1_walk_enumeration_witness :
    ∃ dir, (git_rebase repoInit branchTopic (some upMaster) (some ontoGood) sigA none).2.mergeDir =
        some dir ∧
      assocGet dir ("cmt." ++ natToStr 1) = some (oid_str 2 ++ "\n") := by
  have h : git_rebase repoInit branchTopic (some upMaster) (some ontoGood) sigA none =
      (.ok (), (git_rebase repoInit branchTopic (some upMaster) (some ontoGood) sigA none).2) :=
    Prod.ext (by rfl) rfl
  obtain ⟨dir, hdir, hhit, -, -⟩ :=
    C1_walk_enumeration repoInit branchTopic (some upMaster) (some ontoGood) sigA none _ h
  exact ⟨dir, hdir, hhit 0 2 (by rfl)⟩


theorem no_dirs_load (repo : Repo) (ha : repo.applyDir = none)
    (hm : repo.mergeDir = none) : rebase_state repo = .error errNoRebase := by
  have ht : rebase_state_type repo = .none := by simp [rebase_state_type, ha, hm]
  simp [rebase_state, ht]

theorem readbuffer_error (dir : List (String × String)) (n : String) (e : GErr)
    (h : git_futils_readbuffer dir n = .error e) : e = errFileNotFound := by
  unfold git_futils_readbuffer at h
  split at h
  · simp at h
  · rw [Except.error.injEq] at h; exact h.symm

theorem oid_fromstr_error (s : String) (e : GErr)
    (h : git_oid_fromstr s = .error e) : e = errOidParse := by
  unfold git_oid_fromstr at h
  repeat' split at h
  all_goals simp only [Except.error.injEq, reduceCtorEq] at h
  all_goals exact h.symm

theorem strtol_error (s : String) (e : GErr)
    (h : git_strtol32 s = .error e) : e = errStrtol := by
  simp only [git_strtol32] at h
  repeat' split at h
  all_goals simp only [Except.error.injEq, reduceCtorEq] at h
  all_goals exact h.symm

theorem state_merge_error (repo : Repo) (dir : List (String × String)) (e : GErr)
    (h : rebase_state_merge repo dir = .error e) :
    e = errFileNotFound ∨ e = errStrtol ∨ e = errOidParse ∨ e = errObjectNotFound := by
  unfold rebase_state_merge at h
  repeat' split at h
  all_goals simp only [Except.error.injEq, reduceCtorEq] at h
  all_goals rename_i heq
  all_goals subst h
  · exact Or.inl (readbuffer_error _ _ _ heq)
  · exact Or.inr (Or.inl (strtol_error _ _ heq))
  · exact Or.inl (readbuffer_error _ _ _ heq)
  · rename_i hraw
    split at heq
    · simp at heq
    · exact Or.inr (Or.inl (strtol_error _ _ heq))
  · split at heq
    · simp at heq
    · rename_i raw
      split at heq
      · rename_i e2 hoid
        rw [Except.error.injEq] at heq; subst heq
        exact Or.inr (Or.inr (Or.inl (oid_fromstr_error _ _ hoid)))
      · split at heq
        · rw [Except.error.injEq] at heq; subst heq
          exact Or.inr (Or.inr (Or.inr rfl))
        · simp at heq

theorem rebase_state_error_char (repo : Repo) (e : GErr)
    (h : rebase_state repo = .error e) :
    (repo.applyDir = none ∧ repo.mergeDir = none ∧ e = errNoRebase) ∨
    e = errFileNotFound ∨ e = errStrtol ∨ e = errOidParse ∨
    e = errObjectNotFound ∨ e = errInteractive ∨ e = errApplyFlavor := by
  simp only [rebase_state] at h
  split at h
  · rename_i ht
    rw [Except.error.injEq] at h
    subst h
    unfold rebase_state_type at ht
    by_cases ha : repo.applyDir.isSome
    · simp [ha] at ht
    · by_cases hm2 : repo.mergeDir.isSome
      · simp [ha, hm2] at ht
      · exact Or.inl ⟨Option.not_isSome_iff_eq_none.mp ha,
          Option.not_isSome_iff_eq_none.mp hm2, rfl⟩
  · rename_i hnn
    repeat' split at h
    all_goals simp only [Except.error.injEq, reduceCtorEq] at h
    all_goals try subst h
    · rename_i heq; exact Or.inr (Or.inl (readbuffer_error _ _ _ heq))
    · rename_i heq
      split at heq
      · exact Or.inr (Or.inl (readbuffer_error _ _ _ heq))
      · exact Or.inr (Or.inl (readbuffer_error _ _ _ heq))
    · rename_i heq; exact Or.inr (Or.inr (Or.inr (Or.inl (oid_fromstr_error _ _ heq))))
    · rename_i heq; exact Or.inr (Or.inl (readbuffer_error _ _ _ heq))
    · rename_i heq; exact Or.inr (Or.inr (Or.inr (Or.inl (oid_fromstr_error _ _ heq))))
    · exact Or.inr (Or.inr (Or.inr (Or.inr (Or.inr (Or.inl rfl)))))
    · rename_i heq
      rcases state_merge_error _ _ _ heq with h1 | h1 | h1 | h1
      · exact Or.inr (Or.inl h1)
      · exact Or.inr (Or.inr (Or.inl h1))
      · exact Or.inr (Or.inr (Or.inr (Or.inl h1)))
      · exact Or.inr (Or.inr (Or.inr (Or.inr (Or.inl h1))))
    · exact Or.inr (Or.inr (Or.inr (Or.inr (Or.inr (Or.inr rfl)))))
    · rename_i heq; exact absurd heq hnn

theorem load_err_noRebase (repo : Repo) (h : rebase_state repo = .error errNoRebase) :
    repo.applyDir = none ∧ repo.mergeDir = none := by
  rcases rebase_state_error_char repo _ h with ⟨h1, h2, _⟩ | h1 | h1 | h1 | h1 | h1 | h1
  · exact ⟨h1, h2⟩
  all_goals simp [errFileNotFound, errStrtol, errOidParse, errObjectNotFound,
    errInteractive, errApplyFlavor, errNoRebase] at h1

theorem errRewritten_ne_noRebase (n : Nat) : errRewritten n ≠ errNoRebase := by
  intro h
  simp [errRewritten, errNoRebase, GIT_ERROR, GIT_ENOTFOUND] at h

theorem errRewritten_msg_ne (n : Nat) :
    errRewritten n ≠ ⟨GIT_ERROR, errNoRebase.msg⟩ := by
  intro h
  have h2 := congrArg (fun e => e.msg.data.head?) h
  simp only [errRewritten, errNoRebase] at h2
  rw [String.data_append] at h2
  have hL : ("Invalid rewritten file at line ".data ++ (natToStr n).data).head? = some 'I' := rfl
  rw [hL] at h2
  exact absurd h2 (by decide)

theorem note_read_error (repo : Repo) (ref : String) (t : Oid) (e : GErr)
    (h : git_note_read repo ref t = .error e) : e = errNoteNotFound := by
  unfold git_note_read at h
  split at h
  · simp at h
  · rw [Except.error.injEq] at h; exact h.symm

theorem copy_note_error (repo : Repo) (ref : String) (f t : Oid) (c : Sig)
    (e : GErr) (h : rebase_copy_note repo ref f t c = .error e) :
    e = errNoteExists := by
  unfold rebase_copy_note at h
  split at h
  · rename_i e2 hread
    have he2 : e2 = errNoteNotFound := note_read_error _ _ _ _ hread
    subst he2
    split at h
    · simp at h
    · rename_i hc; exact absurd (by decide) hc
  · unfold git_note_create at h
    split at h
    · rw [Except.error.injEq] at h; exact h.symm
    · simp at h

theorem copy_notes_loop_ne (fuel : Nat) :
    ∀ (repo : Repo) (ref : String) (c : Sig) (ln : Nat) (l : List Char),
    (rebase_copy_notes_loop fuel repo ref c ln l).1 ≠ .error errNoRebase := by
  induction fuel with
  | zero =>
    intro repo ref c ln l h
    simp only [rebase_copy_notes_loop] at h
    rw [Except.error.injEq] at h
    exact errRewritten_ne_noRebase ln h
  | succ fuel ih =>
    intro repo ref c ln l h
    simp only [rebase_copy_notes_loop] at h
    repeat' split at h
    · simp at h
    · rw [Except.error.injEq] at h; exact errRewritten_ne_noRebase ln h
    · rw [Except.error.injEq] at h; exact errRewritten_ne_noRebase ln h
    · rw [Except.error.injEq] at h; exact errRewritten_ne_noRebase ln h
    · rename_i e2 hcn
      rw [Except.error.injEq] at h
      subst h
      have := copy_note_error _ _ _ _ _ _ hcn
      simp [errNoteExists, errNoRebase, GIT_EEXISTS, GIT_ENOTFOUND] at this
    · exact ih _ _ _ _ _ h
    · rw [Except.error.injEq] at h; exact errRewritten_ne_noRebase ln h

theorem copy_notes_ne (repo : Repo) (st : RebaseState) (c : Sig)
    (opts : RebaseOptions) :
    (rebase_copy_notes repo st c opts).1 ≠ .error errNoRebase := by
  intro h
  unfold rebase_copy_notes at h
  repeat' split at h
  · simp at h
  · simp only at h
    rw [Except.error.injEq] at h
    simp [errFileNotFound, errNoRebase] at h
  · rename_i e2 hrd
    have := readbuffer_error _ _ _ hrd
    subst this
    simp only at h
    rw [Except.error.injEq] at h
    simp [errFileNotFound, errNoRebase] at h
  · exact copy_notes_loop_ne _ _ _ _ _ _ h


theorem head_error (repo : Repo) (e : GErr)
    (h : git_repository_head repo = .error e) :
    e = errRefNotFound ∨ e = errUnborn := by
  unfold git_repository_head at h
  repeat' split at h
  all_goals simp only [Except.error.injEq, reduceCtorEq] at h
  · exact Or.inl h.symm
  · exact Or.inl h.symm
  · exact Or.inr h.symm

theorem head_tree_error (repo : Repo) (e : GErr)
    (h : git_repository_head_tree repo = .error e) :
    e = errRefNotFound ∨ e = errUnborn ∨ e = errObjectNotFound ∨ e = errTreeNotFound := by
  unfold git_repository_head_tree at h
  repeat' split at h
  all_goals simp only [Except.error.injEq, reduceCtorEq] at h
  · rename_i heq
    rw [h] at heq
    rcases head_error _ _ heq with h1 | h1
    · exact Or.inl h1
    · exact Or.inr (Or.inl h1)
  · exact Or.inr (Or.inr (Or.inl h.symm))
  · exact Or.inr (Or.inr (Or.inr h.symm))

theorem setupfile_error (repo : Repo) (fn : String) (ap : Bool) (c : String)
    (e : GErr) (h : rebase_setupfile repo fn ap c = .error e) :
    e = errWriteFailed := by
  simp only [rebase_setupfile] at h
  repeat' split at h
  all_goals simp only [Except.error.injEq, reduceCtorEq] at h
  exact h.symm

theorem next_merge_ne (repo : Repo) (st : RebaseState)
    (co : Option CheckoutOptions) :
    (rebase_next_merge repo st co).1 ≠ .error ⟨GIT_ERROR, errNoRebase.msg⟩ := by
  intro h
  simp only [rebase_next_merge] at h
  repeat' split at h
  all_goals simp only [Except.error.injEq, reduceCtorEq] at h
  all_goals first
    | exact absurd h (by decide)
    | (rename_i heq
       subst h
       first
         | exact absurd (readbuffer_error _ _ _ heq) (by decide)
         | exact absurd (oid_fromstr_error _ _ heq) (by decide)
         | exact absurd (setupfile_error _ _ _ _ _ heq) (by decide)
         | (rcases head_tree_error _ _ heq with h1 | h1 | h1 | h1 <;>
             exact absurd h1 (by decide))
         | (repeat' split at heq
            all_goals (try simp only [Except.error.injEq, reduceCtorEq] at heq)
            all_goals first
              | exact absurd heq (by decide)
              | exact absurd (readbuffer_error _ _ _ heq) (by decide))
         | simp [git_merge_check_result] at heq)

theorem update_for_commit_error (repo : Repo) (id : Oid) (e : GErr)
    (h : git_reference_update_for_commit repo id = .error e) :
    e = errRefNotFound := by
  unfold git_reference_update_for_commit at h
  repeat' split at h
  all_goals simp only [Except.error.injEq, reduceCtorEq] at h
  exact h.symm

theorem commit_merge_ne (repo : Repo) (st : RebaseState) (a : Option Sig)
    (c : Sig) (enc msg : Option String) :
    (rebase_commit_merge repo st a c enc msg).1 ≠ .error errNoRebase := by
  intro h
  simp only [rebase_commit_merge] at h
  repeat' split at h
  all_goals simp only [Except.error.injEq, reduceCtorEq] at h
  all_goals first
    | exact absurd h (by decide)
    | (rename_i heq
       subst h
       first
         | (rcases head_error _ _ heq with h1 | h1 <;> exact absurd h1 (by decide))
         | exact absurd (setupfile_error _ _ _ _ _ heq) (by decide)
         | exact absurd (update_for_commit_error _ _ _ heq) (by decide))

theorem symbolic_create_error (repo : Repo) (n : String) (t : Option String)
    (e : GErr) (h : git_reference_symbolic_create repo n t = .error e) :
    e = errInvalidRefName := by
  unfold git_reference_symbolic_create at h
  repeat' split at h
  all_goals simp only [Except.error.injEq, reduceCtorEq] at h
  exact h.symm

theorem create_matching_error (repo : Repo) (n : Option String) (id ex : Oid)
    (e : GErr) (h : git_reference_create_matching repo n id ex = .error e) :
    e = errInvalidRefName ∨ e = errRefModified := by
  unfold git_reference_create_matching at h
  repeat' split at h
  all_goals simp only [Except.error.injEq, reduceCtorEq] at h
  · exact Or.inl h.symm
  · exact Or.inr h.symm
  · exact Or.inr h.symm

theorem reset_hard_error (repo : Repo) (id : Oid) (e : GErr)
    (h : (git_reset_hard repo id).1 = .error e) :
    e = errObjectNotFound ∨ e = errTreeNotFound := by
  unfold git_reset_hard at h
  repeat' split at h
  all_goals simp only [Except.error.injEq, reduceCtorEq] at h
  · exact Or.inl h.symm
  · exact Or.inr h.symm

/-- C5, amended: each of next, commit, abort and finish reports the
"no rebase in progress" condition exactly when neither state directory
exists — but `git_rebase_next` downgrades the code to the generic `-1`
(`return -1;`), keeping only the message, while the other three return the
loader's `GIT_ENOTFOUND` error unchanged.  (The original biconditional with
"fails with NotFound" is refuted separately: with a directory present the
load itself can still fail with other NotFound-class errors.) -/
theorem C5_directory_iff (repo : Repo) (co : Option CheckoutOptions)
    (a : Option Sig) (c : Sig) (enc msg : Option String) (sig sig2 : Sig)
    (opts : Option RebaseOptions) :
    ((git_rebase_next repo co).1 = .error ⟨GIT_ERROR, errNoRebase.msg⟩ ↔
      (repo.applyDir = none ∧ repo.mergeDir = none)) ∧
    ((git_rebase_commit repo a c enc msg).1 = .error errNoRebase ↔
      (repo.applyDir = none ∧ repo.mergeDir = none)) ∧
    ((git_rebase_abort repo sig).1 = .error errNoRebase ↔
      (repo.applyDir = none ∧ repo.mergeDir = none)) ∧
    ((git_rebase_finish repo sig2 opts).1 = .error errNoRebase ↔
      (repo.applyDir = none ∧ repo.mergeDir = none)) := by
  refine ⟨⟨?_, ?_⟩, ⟨?_, ?_⟩, ⟨?_, ?_⟩, ⟨?_, ?_⟩⟩
  · intro h
    simp only [git_rebase_next] at h
    split at h
    · rename_i e hload
      simp only at h
      rw [Except.error.injEq] at h
      rw [GErr.mk.injEq] at h
      have hmsg : e.msg = errNoRebase.msg := h.2
      rcases rebase_state_error_char _ _ hload with ⟨h1, h2, _⟩ | h1 | h1 | h1 | h1 | h1 | h1
      · exact ⟨h1, h2⟩
      all_goals (subst h1; exact absurd hmsg (by decide))
    · rename_i st hload
      split at h
      · exact absurd h (next_merge_ne repo st co)
      · simp only at h
        rw [Except.error.injEq] at h
        exact absurd h (by decide)
  · intro hd
    simp [git_rebase_next, no_dirs_load repo hd.1 hd.2]
  · intro h
    simp only [git_rebase_commit] at h
    split at h
    · rename_i e hload
      simp only at h
      rw [Except.error.injEq] at h
      subst h
      exact load_err_noRebase repo hload
    · rename_i st hload
      split at h
      · exact absurd h (commit_merge_ne repo st a c enc msg)
      · simp only at h
        rw [Except.error.injEq] at h
        exact absurd h (by decide)
  · intro hd
    simp [git_rebase_commit, no_dirs_load repo hd.1 hd.2]
  · intro h
    simp only [git_rebase_abort] at h
    split at h
    · rename_i e hload
      simp only at h
      rw [Except.error.injEq] at h
      subst h
      exact load_err_noRebase repo hload
    · rename_i st hload
      repeat' split at h
      all_goals simp only [Except.error.injEq, reduceCtorEq] at h
      all_goals first
        | exact absurd h (by decide)
        | (rename_i heq
           subst h
           first
             | (split at heq
                · simp at heq
                · exact absurd (symbolic_create_error _ _ _ _ heq) (by decide))
             | (rcases reset_hard_error _ _ _ (congrArg Prod.fst heq) with h1 | h1 <;>
                 exact absurd h1 (by decide)))
  · intro hd
    simp [git_rebase_abort, no_dirs_load repo hd.1 hd.2]
  · intro h
    simp only [git_rebase_finish] at h
    split at h
    · rename_i e hload
      simp only at h
      rw [Except.error.injEq] at h
      subst h
      exact load_err_noRebase repo hload
    · rename_i st hload
      repeat' split at h
      all_goals simp only [Except.error.injEq, reduceCtorEq] at h
      all_goals first
        | exact absurd h (by decide)
        | (rename_i heq
           subst h
           first
             | (rcases head_error _ _ heq with h1 | h1 <;> exact absurd h1 (by decide))
             | (rcases create_matching_error _ _ _ _ _ heq with h1 | h1 <;>
                 exact absurd h1 (by decide))
             | exact absurd (symbolic_create_error _ _ _ _ heq) (by decide)
             | exact (copy_notes_ne _ _ _ _ (congrArg Prod.fst heq)).elim)
  · intro hd
    simp [git_rebase_finish, no_dirs_load repo hd.1 hd.2]

/-- C5, counterexample: with no state directory, `git_rebase_next` fails
with the generic code `-1` — not the NotFound code — because the C code
discards the loader's return value (`return -1;`); and with a merge state
directory present whose mandatory `end` file is missing, `git_rebase_abort`
does not proceed past loading: the load itself fails with a NotFound-class
error while the directory exists. -/
theorem C5_directory_iff_counterexample :
    repoInit.applyDir = none ∧ repoInit.mergeDir = none ∧
    (git_rebase_next repoInit none).1 =
      .error ⟨GIT_ERROR, "There is no rebase in progress"⟩ ∧
    (GIT_ERROR : Int) ≠ GIT_ENOTFOUND ∧
    repoNoEnd.mergeDir.isSome = true ∧
    rebase_state repoNoEnd = .error errFileNotFound ∧
    (git_rebase_abort repoNoEnd sigA).1 = .error errFileNotFound ∧
    (git_rebase_abort repoNoEnd sigA).2 = repoNoEnd ∧
    errFileNotFound.code = GIT_ENOTFOUND :=
  ⟨rfl, rfl, by rfl, by decide, rfl, by rfl, by rfl, by rfl, rfl⟩

/-- C5, witness: the amended biconditional applied to the plain repository
(no state directory): commit, abort and finish all report the no-rebase
error there. -/
theorem C5_directory_iff_witness :
    (git_rebase_commit repoInit none sigA none none).1 = .error errNoRebase ∧
    (git_rebase_abort repoInit sigA).1 = .error errNoRebase ∧
    (git_rebase_finish repoInit sigA none).1 = .error errNoRebase :=
  ⟨((C5_directory_iff repoInit none none sigA none none sigA sigA none).2.1).mpr ⟨rfl, rfl⟩,
   ((C5_directory_iff repoInit none none sigA none none sigA sigA none).2.2.1).mpr ⟨rfl, rfl⟩,
   ((C5_directory_iff repoInit none none sigA none none sigA sigA none).2.2.2).mpr ⟨rfl, rfl⟩⟩
